import Mathlib

/-!
# Plinko simulation: a shallow embedding of `src/main.cpp`

The C++ program keeps its whole state in globals (`balls`, `pins`, `binCenters`,
`balance`, `currentBet`, `lastWin`, `rng`, `betIndex`) and mutates them from
`InitializeGame`, `DropBall`, `UpdateBalls`, `UpdateTimers` and `HandleInput`.
Here the globals are the fields of `Game` and every function is a state
transformer `Game → Game`.

Numeric conventions.

* `float` values are the rationals they denote; the operators `+ - * /` on
  floats are the exact operation followed by `fl`, rounding to the nearest
  value with a 24 bit significand, ties to even (IEEE binary32 arithmetic;
  infinities, NaN and the exponent limits are not modelled).
* Where an operand is the `double` result of `cos`, `sin` or `pow`, the
  operators are those of `double`: the exact operation followed by `fl64`
  (53 bit significand); the value is rounded by `fl` when it is stored in a
  `float`.
* `int` values are integers; the addition `balance += ball.winAmount` of
  `UpdateBalls` is followed by `wrap32`, the reduction modulo `2 ^ 32` to the
  range of a 32 bit `int`.  The subtraction `balance -= currentBet` of
  `DropBall` runs under the check `currentBet <= balance` and cannot leave
  that range for a stake of the bet ladder.
* The functions of the C and C++ runtime the program calls (`exp`, `sqrt`,
  `atan2`, `cos`, `sin`, `pow`, `rand`, `std::discrete_distribution`) are the
  fields of a `Platform`; every theorem holds for every platform.
-/

namespace Plinko

/-! ## binary32 arithmetic -/

/-- Number of binary digits of `n`, computed with `fuel` halvings at most. -/
def bitLen : Nat → Nat → Nat
  | 0, _ => 0
  | fuel + 1, n => if n = 0 then 0 else bitLen fuel (n / 2) + 1

/-- The integer `e` with `2 ^ e ≤ n / d < 2 ^ (e + 1)`, for positive `n` and `d`. -/
def ilog2 (n d : Nat) : Int :=
  if bitLen d d ≤ bitLen n n then
    (if d * 2 ^ (bitLen n n - bitLen d d) ≤ n then ((bitLen n n - bitLen d d : Nat) : Int)
      else ((bitLen n n - bitLen d d : Nat) : Int) - 1)
  else
    (if d ≤ n * 2 ^ (bitLen d d - bitLen n n) then -((bitLen d d - bitLen n n : Nat) : Int)
      else -((bitLen d d - bitLen n n : Nat) : Int) - 1)

/-- The quotient `n / d` rounded to the nearest integer, ties to the even
neighbour. -/
def divRoundEven (n d : Nat) : Nat :=
  if 2 * (n % d) < d then n / d
  else if d < 2 * (n % d) then n / d + 1
  else if (n / d) % 2 = 0 then n / d else n / d + 1

/-- Rounding of the positive rational `n / d` to binary32: with
`e = ilog2 n d - 23` the result is `m * 2 ^ e`, where `m` is `n / (d * 2 ^ e)`
rounded to the nearest integer, ties to even, so `2 ^ 23 ≤ m ≤ 2 ^ 24`. -/
def flPos (n d : Nat) : ℚ :=
  if 0 ≤ ilog2 n d - 23 then
    ((divRoundEven n (d * 2 ^ (ilog2 n d - 23).toNat) * 2 ^ (ilog2 n d - 23).toNat : Nat) : ℚ)
  else
    mkRat (divRoundEven (n * 2 ^ (23 - ilog2 n d).toNat) d) (2 ^ (23 - ilog2 n d).toNat)

/-- Rounding to binary32: the significand keeps 24 bits, round to nearest,
ties to even. -/
def fl (q : ℚ) : ℚ :=
  if q = 0 then 0
  else if 0 < q then flPos q.num.natAbs q.den
  else -flPos q.num.natAbs q.den

/-- The operator `a + b` on floats. -/
def fadd (a b : ℚ) : ℚ := fl (a + b)

/-- The operator `a - b` on floats. -/
def fsub (a b : ℚ) : ℚ := fl (a - b)

/-- The operator `a * b` on floats. -/
def fmul (a b : ℚ) : ℚ := fl (a * b)

/-- The operator `a / b` on floats. -/
def fdiv (a b : ℚ) : ℚ := fl (a / b)

/-- Conversion `int → float`. -/
def ofInt (i : Int) : ℚ := fl (i : ℚ)

/-- Conversion `(int)x`: truncation toward zero. -/
def toInt (x : ℚ) : Int := if 0 ≤ x then Rat.floor x else -Rat.floor (-x)

/-- Rounding of the positive rational `n / d` to binary64: as `flPos`, with a
53 bit significand. -/
def flPos64 (n d : Nat) : ℚ :=
  if 0 ≤ ilog2 n d - 52 then
    ((divRoundEven n (d * 2 ^ (ilog2 n d - 52).toNat) * 2 ^ (ilog2 n d - 52).toNat : Nat) : ℚ)
  else
    mkRat (divRoundEven (n * 2 ^ (52 - ilog2 n d).toNat) d) (2 ^ (52 - ilog2 n d).toNat)

/-- Rounding to binary64: the significand keeps 53 bits, round to nearest,
ties to even. -/
def fl64 (q : ℚ) : ℚ :=
  if q = 0 then 0
  else if 0 < q then flPos64 q.num.natAbs q.den
  else -flPos64 q.num.natAbs q.den

/-- The operator `a + b` on doubles. -/
def dadd (a b : ℚ) : ℚ := fl64 (a + b)

/-- The operator `a - b` on doubles. -/
def dsub (a b : ℚ) : ℚ := fl64 (a - b)

/-- The operator `a * b` on doubles. -/
def dmul (a b : ℚ) : ℚ := fl64 (a * b)

/-! ## 32 bit integers -/

/-- Reduction of an integer modulo `2 ^ 32` to the range of a 32 bit `int`. -/
def wrap32 (x : Int) : Int := (x + 2147483648) % 4294967296 - 2147483648

/-- The integer is a value of a 32 bit `int`. -/
def InInt32 (x : Int) : Prop := -2147483648 ≤ x ∧ x < 2147483648

/-! ## Constants (lines 9-23, 35-39, 63, 73) -/

def WINDOW_WIDTH : Int := 1200
def WINDOW_HEIGHT : Int := 1200

def NUM_ROWS : Int := 18
def PIN_RADIUS : ℚ := fl 5
def PIN_SPACING_X : ℚ := fl 50
def PIN_SPACING_Y : ℚ := fl 45
def START_Y : ℚ := fadd (fdiv (ofInt WINDOW_HEIGHT) (fl 4)) (fl 20)

def BALL_RADIUS : ℚ := fl 8
def GRAVITY : ℚ := fl (3 / 10)
def BOUNCE_DAMPING : ℚ := fl (7 / 10)
def FRICTION : ℚ := fl (995 / 1000)

/-- The decimal literals of the table `PRIZE_MULTIPLIERS`, as written. -/
def multiplierLiterals : List ℚ :=
  [1000, 130, 26, 9, 4, 2, 5 / 10, 2 / 10, 2 / 10, 2 / 10,
   2 / 10,
   2 / 10, 2 / 10, 2 / 10, 5 / 10, 2, 4, 9, 26, 130, 1000]

/-- The table `PRIZE_MULTIPLIERS`: each literal as a `float`. -/
def PRIZE_MULTIPLIERS : List ℚ := multiplierLiterals.map fl

def WIN_DISPLAY_DURATION : ℚ := fl (25 / 10)

def BET_AMOUNTS : List Int := [1, 5, 10, 25, 50, 100, 250, 500]

/-! ## Data (lines 41-62) -/

structure Vector2 where
  x : ℚ
  y : ℚ
deriving DecidableEq, Repr

structure Ball where
  position : Vector2
  velocity : Vector2
  active : Bool
  finalBin : Int
  winAmount : Int
  betAmount : Int
deriving DecidableEq, Repr

structure Pin where
  position : Vector2
deriving DecidableEq, Repr

structure LastWinInfo where
  amountWon : Int
  betAmount : Int
  finalBin : Int
  displayTimer : ℚ
deriving DecidableEq, Repr

/-- The runtime functions the program calls, with the part of their
documented contract the program relies on. -/
structure Platform where
  /-- State of the random sources (`rng` and the hidden state of `rand`). -/
  Rng : Type
  RAND_MAX : Int
  /-- The call `rand()`. -/
  rand : Rng → Int × Rng
  /-- The call `std::discrete_distribution<int>(w.begin(), w.end())(rng)`. -/
  discrete_distribution : List ℚ → Rng → Int × Rng
  /-- The value of `exp(x)` as stored in the `float weight` of line 109. -/
  exp : ℚ → ℚ
  /-- The value of `sqrt(x)` as stored in the `float distance` of line 162. -/
  sqrt : ℚ → ℚ
  /-- The `double` value of `cos(x)`. -/
  cos : ℚ → ℚ
  /-- The `double` value of `sin(x)`. -/
  sin : ℚ → ℚ
  /-- The value of `atan2(y, x)` as stored in the `float angle` of line 165. -/
  atan2 : ℚ → ℚ → ℚ
  /-- The `double` value of `pow(x, y)`. -/
  pow : ℚ → ℚ → ℚ
  /-- The exponential does not underflow to zero on moderate arguments. -/
  exp_pos : ∀ x : ℚ, -87 ≤ x → 0 < exp x
  /-- For weights that are non-negative and not all zero the distribution
  produces an index `i` with `0 ≤ i < n`. -/
  discrete_range : ∀ (w : List ℚ) (r : Rng), (∀ x ∈ w, 0 ≤ x) → (∃ x ∈ w, 0 < x) →
    0 ≤ (discrete_distribution w r).1 ∧ (discrete_distribution w r).1 < (w.length : Int)

/-- The globals of the program (lines 65-74). -/
structure Game (P : Platform) where
  balls : List Ball
  pins : List Pin
  binCenters : List Vector2
  balance : Int
  currentBet : Int
  lastWin : LastWinInfo
  rng : P.Rng
  betIndex : Int

/-! ## `InitializeGame` (lines 76-100) -/

/-- The pins of one row: the inner loop, lines 81-88. -/
def rowPins (row : Nat) : List Pin :=
  let pins_in_row : Int := 3 + row
  let y := fadd START_Y (fmul (ofInt row) PIN_SPACING_Y)
  let start_x := fsub (fdiv (ofInt WINDOW_WIDTH) (fl 2))
    (fdiv (fmul (ofInt (pins_in_row - 1)) PIN_SPACING_X) (fl 2))
  (List.range pins_in_row.toNat).map fun pin =>
    { position := { x := fadd start_x (fmul (ofInt pin) PIN_SPACING_X), y := y } }

/-- All pins, row after row: the loop of lines 80-89. -/
def boardPins : List Pin := (List.range NUM_ROWS.toNat).flatMap rowPins

/-- The bin centres: lines 91-99. -/
def boardBinCenters : List Vector2 :=
  let NUM_BINS : Int := PRIZE_MULTIPLIERS.length
  let BIN_WIDTH := PIN_SPACING_X
  let total_bins_width := fmul (ofInt NUM_BINS) BIN_WIDTH
  let bins_block_start_x := fsub (fdiv (ofInt WINDOW_WIDTH) (fl 2)) (fdiv total_bins_width (fl 2))
  (List.range NUM_BINS.toNat).map fun i =>
    { x := fadd (fadd bins_block_start_x (fmul (ofInt i) BIN_WIDTH)) (fdiv BIN_WIDTH (fl 2)),
      y := 0 }

def InitializeGame {P : Platform} (g : Game P) : Game P :=
  { g with pins := boardPins, binCenters := boardBinCenters }

/-- The globals as initialised at lines 65-74, before `InitializeGame`. -/
def startup (P : Platform) (seed : P.Rng) : Game P :=
  { balls := [], pins := [], binCenters := [], balance := 1000, currentBet := 10,
    lastWin := { amountWon := 0, betAmount := 0, finalBin := -1, displayTimer := 0 },
    rng := seed, betIndex := 2 }

/-- The state in which `main` enters its loop. -/
def initial (P : Platform) (seed : P.Rng) : Game P := InitializeGame (startup P seed)

/-! ## `PrecalculateOutcome` (lines 102-115) -/

/-- The argument handed to `exp` for bin `i`: lines 105, 108, 109. -/
def weightArg (i : Nat) : ℚ :=
  let numBins : Int := PRIZE_MULTIPLIERS.length
  let center := fdiv (ofInt (numBins - 1)) (fl 2)
  let distance := |fsub (ofInt i) center|
  fmul (-distance) (fl (6 / 10))

/-- The vector `weights` built by the loop of lines 107-111. -/
def outcomeWeights (P : Platform) : List ℚ :=
  (List.range PRIZE_MULTIPLIERS.length).map fun i => P.exp (weightArg i)

def PrecalculateOutcome (P : Platform) (r : P.Rng) : Int × P.Rng :=
  P.discrete_distribution (outcomeWeights P) r

/-! ## `DropBall` (lines 117-131) -/

/-- The expression `(int)(currentBet * PRIZE_MULTIPLIERS[bin])` of line 126. -/
def payout (bet : Int) (bin : Int) : Int :=
  toInt (fmul (ofInt bet) (PRIZE_MULTIPLIERS.getD bin.toNat 0))

/-- The ball built at lines 122-128, with the random state after the two draws. -/
def newBall {P : Platform} (g : Game P) : Ball × P.Rng :=
  let o := PrecalculateOutcome P g.rng
  let j := P.rand o.2
  ({ active := true
     betAmount := g.currentBet
     finalBin := o.1
     winAmount := payout g.currentBet o.1
     position :=
       { x := fadd (fdiv (ofInt WINDOW_WIDTH) (fl 2))
           (fmul (fsub (fdiv (ofInt j.1) (ofInt P.RAND_MAX)) (fl (5 / 10))) (fl 5)),
         y := 160 }
     velocity := { x := 0, y := 0 } }, j.2)

def DropBall {P : Platform} (g : Game P) : Game P :=
  if g.balance < g.currentBet then g
  else
    let nb := newBall g
    { g with balance := g.balance - g.currentBet, balls := g.balls ++ [nb.1], rng := nb.2 }

/-! ## `UpdateBalls` (lines 133-201) -/

/-- The guidance block, lines 139-153. -/
def guide (P : Platform) (binCenters : List Vector2) (b : Ball) : Ball :=
  if 0 ≤ b.finalBin ∧ b.finalBin < (binCenters.length : Int) then
    let targetX := (binCenters.getD b.finalBin.toNat { x := 0, y := 0 }).x
    let distanceToTarget := fsub targetX b.position.x
    let dropTopY := fl 160
    let dropBottomY := fadd START_Y (fmul (ofInt (NUM_ROWS - 1)) PIN_SPACING_Y)
    let totalDropHeight := fsub dropBottomY dropTopY
    let progress := max 0 (min 1 (fdiv (fsub b.position.y dropTopY) totalDropHeight))
    let guidanceStrength := fl (dmul (fl (25 / 1000)) (P.pow progress (fl 3)))
    let guidanceForce := fmul distanceToTarget guidanceStrength
    { b with velocity := { b.velocity with x := fadd b.velocity.x guidanceForce } }
  else b

/-- One iteration of the pin loop, lines 160-175.  The products with
`cos(angle)` and `sin(angle)` and the sums they enter are `double`
operations; each right-hand side is rounded once, when it is stored. -/
def collide (P : Platform) (b : Ball) (pin : Pin) : Ball :=
  let dx := fsub b.position.x pin.position.x
  let dy := fsub b.position.y pin.position.y
  let distance := P.sqrt (fadd (fmul dx dx) (fmul dy dy))
  if distance < fadd BALL_RADIUS PIN_RADIUS then
    let angle := P.atan2 dy dx
    let overlap := fsub (fadd BALL_RADIUS PIN_RADIUS) distance
    let px := fl (dadd b.position.x (dmul (P.cos angle) overlap))
    let py := fl (dadd b.position.y (dmul (P.sin angle) overlap))
    let dot := fl (dadd (dmul b.velocity.x (P.cos angle)) (dmul b.velocity.y (P.sin angle)))
    let vx := fl (dsub b.velocity.x (dmul (fmul (ofInt 2) dot) (P.cos angle)))
    let vy := fl (dsub b.velocity.y (dmul (fmul (ofInt 2) dot) (P.sin angle)))
    { b with position := { x := px, y := py },
             velocity := { x := fmul vx BOUNCE_DAMPING, y := fmul vy BOUNCE_DAMPING } }
  else b

/-- Lines 137-176: gravity, guidance, friction, integration, pin collisions. -/
def moveBall (P : Platform) (pins : List Pin) (binCenters : List Vector2) (b : Ball) : Ball :=
  let b1 := { b with velocity := { b.velocity with y := fadd b.velocity.y GRAVITY } }
  let b2 := guide P binCenters b1
  let b3 := { b2 with velocity := { b2.velocity with x := fmul b2.velocity.x FRICTION } }
  let b4 := { b3 with position := { x := fadd b3.position.x b3.velocity.x,
                                    y := fadd b3.position.y b3.velocity.y } }
  pins.foldl (collide P) b4

/-- The right-hand side of the comparison of line 178. -/
def EXIT_Y : ℚ := fadd (fadd START_Y (fmul (ofInt NUM_ROWS) PIN_SPACING_Y)) (fl 50)

/-- The test of line 178. -/
def exited (b : Ball) : Bool := decide (EXIT_Y < b.position.y)

/-- The wall clamps, lines 188-195. -/
def walls (b : Ball) : Ball :=
  let b1 :=
    if b.position.x < BALL_RADIUS then
      { b with position := { b.position with x := BALL_RADIUS },
               velocity := { b.velocity with x := fmul (-b.velocity.x) BOUNCE_DAMPING } }
    else b
  if fsub (ofInt WINDOW_WIDTH) BALL_RADIUS < b1.position.x then
    { b1 with position := { b1.position with x := fsub (ofInt WINDOW_WIDTH) BALL_RADIUS },
              velocity := { b1.velocity with x := fmul (-b1.velocity.x) BOUNCE_DAMPING } }
  else b1

/-- What the loop of lines 134-196 carries from ball to ball: the globals
`balance` and `lastWin`, and the balls already visited. -/
structure Loop where
  balance : Int
  lastWin : LastWinInfo
  done : List Ball

/-- The body of the loop, lines 135-195, for one ball. -/
def visit (P : Platform) (pins : List Pin) (binCenters : List Vector2) (l : Loop) (b : Ball) :
    Loop :=
  if !b.active then { l with done := l.done ++ [b] }
  else
    let m := moveBall P pins binCenters b
    if exited m then
      { balance := wrap32 (l.balance + m.winAmount)
        lastWin := { amountWon := m.winAmount, betAmount := m.betAmount, finalBin := m.finalBin,
                     displayTimer := WIN_DISPLAY_DURATION }
        done := l.done ++ [walls { m with active := false }] }
    else { l with done := l.done ++ [walls m] }

/-- The loop of lines 134-196 over a list of balls. -/
def sweep (P : Platform) (pins : List Pin) (binCenters : List Vector2) (l : Loop)
    (bs : List Ball) : Loop :=
  bs.foldl (visit P pins binCenters) l

def UpdateBalls {P : Platform} (g : Game P) : Game P :=
  let l := sweep P g.pins g.binCenters { balance := g.balance, lastWin := g.lastWin, done := [] }
    g.balls
  { g with balance := l.balance, lastWin := l.lastWin, balls := l.done.filter fun b => b.active }

/-! ## `UpdateTimers` (lines 203-209); `dt` is the value of `GetFrameTime()` -/

def UpdateTimers {P : Platform} (dt : ℚ) (g : Game P) : Game P :=
  if 0 < g.lastWin.displayTimer then
    { g with lastWin := { g.lastWin with displayTimer := fsub g.lastWin.displayTimer dt } }
  else
    { g with lastWin := { g.lastWin with finalBin := -1 } }

/-! ## `HandleInput` (lines 211-224) -/

/-- What the input layer reports for one frame. -/
structure Input where
  /-- Value of `IsKeyPressed(KEY_SPACE) || IsMouseButtonPressed(MOUSE_LEFT_BUTTON)`. -/
  drop : Bool
  /-- Value of `IsKeyPressed(KEY_UP)`. -/
  up : Bool
  /-- Value of `IsKeyPressed(KEY_DOWN)`. -/
  down : Bool
deriving DecidableEq, Repr

/-- Conversion of an `int` to `size_t`, as in the comparison of line 216. -/
def toSizeT (i : Int) : Int := i % 2 ^ 64

/-- The drop request, lines 212-214. -/
def pressDrop {P : Platform} (i : Input) (g : Game P) : Game P :=
  if i.drop ∧ g.currentBet ≤ g.balance then DropBall g else g

/-- The bet increase, lines 216-219. -/
def pressUp {P : Platform} (i : Input) (g : Game P) : Game P :=
  if i.up ∧ toSizeT g.betIndex < (BET_AMOUNTS.length : Int) - 1 then
    { g with betIndex := g.betIndex + 1,
             currentBet := BET_AMOUNTS.getD (g.betIndex + 1).toNat 0 }
  else g

/-- The bet decrease, lines 220-223. -/
def pressDown {P : Platform} (i : Input) (g : Game P) : Game P :=
  if i.down ∧ 0 < g.betIndex then
    { g with betIndex := g.betIndex - 1,
             currentBet := BET_AMOUNTS.getD (g.betIndex - 1).toNat 0 }
  else g

def HandleInput {P : Platform} (i : Input) (g : Game P) : Game P :=
  pressDown i (pressUp i (pressDrop i g))

/-- One pass of the loop of `main`, lines 351-353. -/
def frame {P : Platform} (i : Input) (dt : ℚ) (g : Game P) : Game P :=
  UpdateBalls (UpdateTimers dt (HandleInput i g))

/-! ## The result text of `DrawUI` (lines 311-324) -/

inductive Verdict where
  /-- First branch: text `WIN! +$n`, colour `COLOR_WIN`. -/
  | win
  /-- Second branch: text `PUSH`, colour `COLOR_TEXT`. -/
  | push
  /-- Last branch: text `WIN +$n`, colour `COLOR_LOSE`. -/
  | loss
deriving DecidableEq, Repr

/-- The branch `DrawUI` takes at lines 315-324. -/
def verdict (w : LastWinInfo) : Verdict :=
  if w.betAmount < w.amountWon then Verdict.win
  else if w.amountWon = w.betAmount then Verdict.push
  else Verdict.loss

/-! ## A sample platform

Rational stand-ins for the runtime functions, used to run the model on
concrete inputs.  No theorem about the program depends on them. -/

/-- Reciprocal of the quadratic Taylor polynomial of `exp (-x)` for `x ≤ 0`,
the polynomial itself for `x > 0`. -/
def sampleExp (x : ℚ) : ℚ :=
  if x ≤ 0 then 1 / (1 - x + x ^ 2 / 2) else 1 + x + x ^ 2 / 2

/-- The power `2 ^ e` for an integer exponent. -/
def pow2 (e : Int) : ℚ :=
  if 0 ≤ e then ((2 ^ e.toNat : Nat) : ℚ) else mkRat 1 (2 ^ (-e).toNat)

/-- Heron iteration started at `x`. -/
def heron (q : ℚ) : Nat → ℚ → ℚ
  | 0, x => x
  | n + 1, x => heron q n ((x + q / x) / 2)

/-- Square root by four Heron steps from the power of two nearest to it. -/
def sampleSqrt (q : ℚ) : ℚ :=
  if q ≤ 0 then 0
  else fl (heron q 4 (pow2 (ilog2 q.num.natAbs q.den / 2)))

def sampleCos (x : ℚ) : ℚ := fl64 (1 - x ^ 2 / 2 + x ^ 4 / 24)

def sampleSin (x : ℚ) : ℚ := fl64 (x - x ^ 3 / 6 + x ^ 5 / 120)

/-- A first-order arctangent of `y / x`, by quadrant. -/
def sampleAtan2 (y x : ℚ) : ℚ :=
  if x = 0 then (if 0 ≤ y then 11 / 7 else -11 / 7)
  else if |y| ≤ |x| then
    fl (y / x * (1 - (y / x) ^ 2 / 4)) + (if 0 < x then 0 else if 0 ≤ y then 22 / 7 else -22 / 7)
  else
    (if 0 ≤ y then 11 / 7 else -11 / 7) - fl (x / y * (1 - (x / y) ^ 2 / 4))

def samplePow (x y : ℚ) : ℚ := fl64 (x ^ (toInt y).toNat)

/-- The linear congruential step of the classic `rand`. -/
def lcg (r : Nat) : Nat := (1103515245 * r + 12345) % 2147483648

/-- Index of the weight under which the running sum first exceeds `t`; the
length of the list when it never does. -/
def pick : List ℚ → ℚ → Nat
  | [], _ => 0
  | w :: ws, t => if t < w then 0 else pick ws (t - w) + 1

/-- Inverse-CDF sampling with the uniform variate `(r mod 1024) / 1024`, the
index capped at the last weight. -/
def sampleDiscrete (w : List ℚ) (r : Nat) : Int × Nat :=
  ((min (pick w (w.sum * ((r % 1024 : Nat) : ℚ) / 1024)) (w.length - 1) : Nat), lcg r)

/-- The sample platform. -/
def samplePlatform : Platform where
  Rng := Nat
  RAND_MAX := 2147483647
  rand := fun r => ((lcg r : Nat), lcg r)
  discrete_distribution := sampleDiscrete
  exp := sampleExp
  sqrt := sampleSqrt
  cos := sampleCos
  sin := sampleSin
  atan2 := sampleAtan2
  pow := samplePow
  exp_pos := by
    intro x _
    unfold sampleExp
    split
    · apply div_pos one_pos
      nlinarith [sq_nonneg (x - 1)]
    · rename_i h
      push_neg at h
      positivity
  discrete_range := by
    intro w r _ hpos
    obtain ⟨x, hx, _⟩ := hpos
    have hlen : 0 < w.length := List.length_pos_of_mem hx
    simp only [sampleDiscrete]
    constructor
    · exact Int.natCast_nonneg _
    · have hlt : min (pick w (w.sum * ((r % 1024 : Nat) : ℚ) / 1024)) (w.length - 1) <
          w.length := by omega
      exact_mod_cast hlt

/-! ## Runs and the ledger -/

/-- The calls a frame is made of. -/
inductive Op where
  | dropBall
  | updateBalls
  | updateTimers (dt : ℚ)
  | handleInput (i : Input)

/-- The state after one call. -/
def Op.exec {P : Platform} : Op → Game P → Game P
  | Op.dropBall, g => DropBall g
  | Op.updateBalls, g => UpdateBalls g
  | Op.updateTimers dt, g => UpdateTimers dt g
  | Op.handleInput i, g => HandleInput i g

/-- The state after a sequence of calls. -/
def run {P : Platform} (ops : List Op) (g : Game P) : Game P :=
  ops.foldl (fun s o => o.exec s) g

/-- The ball a call spawns, when the call is a drop that passes the balance
check. -/
def Op.spawn {P : Platform} : Op → Game P → List Ball
  | Op.dropBall, g => if g.balance < g.currentBet then [] else [(newBall g).1]
  | Op.handleInput i, g => if i.drop ∧ g.currentBet ≤ g.balance then [(newBall g).1] else []
  | _, _ => []

/-- The balls spawned along a run, oldest first. -/
def spawned {P : Platform} : List Op → Game P → List Ball
  | [], _ => []
  | o :: os, g => o.spawn g ++ spawned os (o.exec g)

/-- Sum of the wagers of a list of balls. -/
def wagers (bs : List Ball) : Int := (bs.map fun b => b.betAmount).sum

/-- Sum of the payouts of a list of balls. -/
def payouts (bs : List Ball) : Int := (bs.map fun b => b.winAmount).sum

/-- Payouts still owed: those of the balls that are active. -/
def inFlight (bs : List Ball) : Int := payouts (bs.filter fun b => b.active)

/-- What the loop body of `UpdateBalls` does to the ball it visits. -/
def stepBall (P : Platform) (pins : List Pin) (binCenters : List Vector2) (b : Ball) : Ball :=
  if !b.active then b
  else
    let m := moveBall P pins binCenters b
    if exited m then walls { m with active := false } else walls m

/-- The ball is active and crosses the exit line in this tick. -/
def settles (P : Platform) (pins : List Pin) (binCenters : List Vector2) (b : Ball) : Bool :=
  b.active && exited (moveBall P pins binCenters b)

/-- The record written to `lastWin` when `b` settles, lines 182-185. -/
def winInfo (b : Ball) : LastWinInfo :=
  { amountWon := b.winAmount, betAmount := b.betAmount, finalBin := b.finalBin,
    displayTimer := WIN_DISPLAY_DURATION }

/-- The fields of a ball fixed by `DropBall`. -/
def Ball.ticket (b : Ball) : Int × Int × Int := (b.finalBin, b.winAmount, b.betAmount)

/-- The bet index is on the ladder and `currentBet` is the stake it selects. -/
def Ladder {P : Platform} (g : Game P) : Prop :=
  0 ≤ g.betIndex ∧ g.betIndex < (BET_AMOUNTS.length : Int) ∧
    BET_AMOUNTS.getD g.betIndex.toNat 0 = g.currentBet

/-- The balls a tick keeps: those that are active and do not settle, moved. -/
def survivors (P : Platform) (pins : List Pin) (bc : List Vector2) (bs : List Ball) : List Ball :=
  (bs.map (stepBall P pins bc)).filter fun b => b.active

/-- The bin centres are those of the board and every ball aims at one of the
21 bins. -/
def BinsValid {P : Platform} (g : Game P) : Prop :=
  g.binCenters = boardBinCenters ∧ ∀ b ∈ g.balls, 0 ≤ b.finalBin ∧ b.finalBin < 21

/-! ## Sample inputs -/

/-- The input of a frame in which only `KEY_DOWN` is pressed. -/
def onlyDown : Input := { drop := false, up := false, down := true }

/-- The input of a frame in which only `KEY_UP` is pressed. -/
def onlyUp : Input := { drop := false, up := true, down := false }

/-- One drop followed by ninety ticks. -/
def dropAndFall : List Op := Op.dropBall :: List.replicate 90 Op.updateBalls

/-- The board of `main` with balance 50 and the bet at 100. -/
def shortGame : Game samplePlatform :=
  { initial samplePlatform (0 : Nat) with balance := 50, currentBet := 100, betIndex := 5 }

/-- A ball of bin 0 with wager 10 and payout 10000, one unit above the exit line
and falling. -/
def exitBall : Ball :=
  { position := { x := 100, y := 1179 }, velocity := { x := 0, y := 5 }, active := true,
    finalBin := 0, winAmount := 10000, betAmount := 10 }

/-- The startup globals after the drop of `exitBall` at balance 1000. -/
def exitGame : Game samplePlatform :=
  { startup samplePlatform (0 : Nat) with balance := 990, balls := [exitBall] }

/-- A ball of bin 5 with wager 5 and payout 10, one unit above the exit line
and falling. -/
def richBall : Ball :=
  { position := { x := 350, y := 1179 }, velocity := { x := 0, y := 5 }, active := true,
    finalBin := 5, winAmount := 10, betAmount := 5 }

/-- The startup globals with `richBall` in flight and the balance six below
the largest `int`. -/
def richGame : Game samplePlatform :=
  { startup samplePlatform (0 : Nat) with balance := 2147483642, balls := [richBall] }

/-- The startup globals with the balance set to `B`. -/
def fallGame (B : Int) : Game samplePlatform :=
  { startup samplePlatform (0 : Nat) with balance := B }

/-- A state showing the result of a settled ball of bin 0 with 1/64 s left on
the timer. -/
def fadingGame : Game samplePlatform :=
  { initial samplePlatform (0 : Nat) with
    lastWin := { amountWon := 10000, betAmount := 10, finalBin := 0, displayTimer := 1 / 64 } }

/-! ## Lemmas on the physics: the ticket and the flag are not touched -/

theorem guide_ticket (P : Platform) (bc : List Vector2) (b : Ball) :
    (guide P bc b).ticket = b.ticket ∧ (guide P bc b).active = b.active ∧
      (guide P bc b).position = b.position := by
  unfold guide
  split <;> simp [Ball.ticket]

theorem collide_ticket (P : Platform) (b : Ball) (pin : Pin) :
    (collide P b pin).ticket = b.ticket ∧ (collide P b pin).active = b.active := by
  unfold collide
  simp only
  split <;> simp [Ball.ticket]

theorem foldl_collide_ticket (P : Platform) (pins : List Pin) (b : Ball) :
    (pins.foldl (collide P) b).ticket = b.ticket ∧
      (pins.foldl (collide P) b).active = b.active := by
  induction pins generalizing b with
  | nil => simp
  | cons p ps ih =>
    simp only [List.foldl_cons]
    rw [(ih _).1, (ih _).2]
    exact collide_ticket P b p

theorem moveBall_ticket (P : Platform) (pins : List Pin) (bc : List Vector2) (b : Ball) :
    (moveBall P pins bc b).ticket = b.ticket ∧ (moveBall P pins bc b).active = b.active := by
  unfold moveBall
  simp only
  rw [(foldl_collide_ticket P pins _).1, (foldl_collide_ticket P pins _).2]
  have h := guide_ticket P bc
    { b with velocity := { b.velocity with y := fadd b.velocity.y GRAVITY } }
  simp only [Ball.ticket, Prod.mk.injEq] at h ⊢
  simp [h.1, h.2]

theorem walls_ticket (b : Ball) :
    (walls b).ticket = b.ticket ∧ (walls b).active = b.active := by
  unfold walls
  simp only
  split <;> split <;> simp [Ball.ticket]

theorem stepBall_ticket (P : Platform) (pins : List Pin) (bc : List Vector2) (b : Ball) :
    (stepBall P pins bc b).ticket = b.ticket := by
  unfold stepBall
  simp only
  split
  · rfl
  · split
    · rw [(walls_ticket _).1]
      exact (moveBall_ticket P pins bc b).1
    · rw [(walls_ticket _).1]
      exact (moveBall_ticket P pins bc b).1

theorem stepBall_active (P : Platform) (pins : List Pin) (bc : List Vector2) (b : Ball) :
    (stepBall P pins bc b).active = (b.active && !settles P pins bc b) := by
  unfold stepBall settles
  simp only
  cases hb : b.active
  · simp [hb]
  · cases he : exited (moveBall P pins bc b)
    · simp [he, (walls_ticket _).2, (moveBall_ticket P pins bc b).2, hb]
    · simp [he, (walls_ticket _).2]

/-! ## Lemmas on the loop of `UpdateBalls` -/

theorem visit_done (P : Platform) (pins : List Pin) (bc : List Vector2) (l : Loop) (b : Ball) :
    (visit P pins bc l b).done = l.done ++ [stepBall P pins bc b] := by
  unfold visit stepBall
  simp only
  split
  · rfl
  · split <;> rfl

theorem wrap32_range (x : Int) : InInt32 (wrap32 x) := by
  unfold InInt32 wrap32
  omega

theorem wrap32_of_range {x : Int} (h : InInt32 x) : wrap32 x = x := by
  unfold InInt32 at h
  unfold wrap32
  omega

theorem wrap32_add_left (a c : Int) : wrap32 (wrap32 a + c) = wrap32 (a + c) := by
  unfold wrap32
  omega

theorem visit_balance (P : Platform) (pins : List Pin) (bc : List Vector2) (l : Loop) (b : Ball) :
    (visit P pins bc l b).balance =
      if settles P pins bc b then wrap32 (l.balance + b.winAmount) else l.balance := by
  have ht := (moveBall_ticket P pins bc b).1
  simp only [Ball.ticket, Prod.mk.injEq] at ht
  unfold visit settles
  simp only
  cases hb : b.active
  · simp
  · cases he : exited (moveBall P pins bc b)
    · simp
    · simp [ht.2.1]

theorem visit_lastWin (P : Platform) (pins : List Pin) (bc : List Vector2) (l : Loop) (b : Ball) :
    (visit P pins bc l b).lastWin = if settles P pins bc b then winInfo b else l.lastWin := by
  have ht := (moveBall_ticket P pins bc b).1
  simp only [Ball.ticket, Prod.mk.injEq] at ht
  unfold visit settles winInfo
  simp only
  cases hb : b.active
  · simp
  · cases he : exited (moveBall P pins bc b)
    · simp
    · simp [ht.1, ht.2.1, ht.2.2]

theorem sweep_append (P : Platform) (pins : List Pin) (bc : List Vector2) (l : Loop)
    (xs ys : List Ball) :
    sweep P pins bc l (xs ++ ys) = sweep P pins bc (sweep P pins bc l xs) ys := by
  simp [sweep, List.foldl_append]

theorem sweep_cons (P : Platform) (pins : List Pin) (bc : List Vector2) (l : Loop)
    (b : Ball) (bs : List Ball) :
    sweep P pins bc l (b :: bs) = sweep P pins bc (visit P pins bc l b) bs := rfl

theorem sweep_done (P : Platform) (pins : List Pin) (bc : List Vector2) (l : Loop)
    (bs : List Ball) :
    (sweep P pins bc l bs).done = l.done ++ bs.map (stepBall P pins bc) := by
  induction bs generalizing l with
  | nil => simp [sweep]
  | cons b bs ih => rw [sweep_cons, ih, visit_done]; simp

theorem payouts_cons (b : Ball) (bs : List Ball) :
    payouts (b :: bs) = b.winAmount + payouts bs := by
  simp [payouts]

theorem payouts_append (xs ys : List Ball) : payouts (xs ++ ys) = payouts xs + payouts ys := by
  simp [payouts]

theorem wagers_append (xs ys : List Ball) : wagers (xs ++ ys) = wagers xs + wagers ys := by
  simp [wagers]

theorem sweep_balance (P : Platform) (pins : List Pin) (bc : List Vector2) (l : Loop)
    (bs : List Ball) :
    wrap32 (sweep P pins bc l bs).balance =
      wrap32 (l.balance + payouts (bs.filter (settles P pins bc))) := by
  induction bs generalizing l with
  | nil => simp [sweep, payouts]
  | cons b bs ih =>
    rw [sweep_cons, ih, visit_balance]
    cases hs : settles P pins bc b
    · simp [List.filter_cons, hs]
    · simp only [if_true, List.filter_cons, hs, payouts_cons]
      rw [wrap32_add_left, add_assoc]

theorem sweep_range (P : Platform) (pins : List Pin) (bc : List Vector2) (l : Loop)
    (bs : List Ball) (h : InInt32 l.balance) : InInt32 (sweep P pins bc l bs).balance := by
  induction bs generalizing l with
  | nil => exact h
  | cons b bs ih =>
    rw [sweep_cons]
    apply ih
    rw [visit_balance]
    split
    · exact wrap32_range _
    · exact h

theorem sweep_lastWin (P : Platform) (pins : List Pin) (bc : List Vector2) (l : Loop)
    (bs : List Ball) :
    (sweep P pins bc l bs).lastWin =
      (((bs.filter (settles P pins bc)).map winInfo).getLastD l.lastWin) := by
  induction bs generalizing l with
  | nil => simp [sweep]
  | cons b bs ih =>
    rw [sweep_cons, ih, visit_lastWin]
    cases hs : settles P pins bc b
    · simp [List.filter_cons, hs]
    · simp only [if_true, List.filter_cons, hs, List.map_cons]
      cases hm : List.map winInfo (List.filter (settles P pins bc) bs) with
      | nil => simp
      | cons c cs =>
        rcases hl : (c :: cs).getLast? with _ | x
        · simp at hl
        · simp [hl]

theorem survivors_append (P : Platform) (pins : List Pin) (bc : List Vector2)
    (xs ys : List Ball) :
    survivors P pins bc (xs ++ ys) = survivors P pins bc xs ++ survivors P pins bc ys := by
  simp [survivors]

theorem UpdateBalls_balls {P : Platform} (g : Game P) :
    (UpdateBalls g).balls = survivors P g.pins g.binCenters g.balls := by
  simp [UpdateBalls, sweep_done, survivors]

theorem UpdateBalls_balance {P : Platform} (g : Game P) :
    wrap32 (UpdateBalls g).balance =
      wrap32 (g.balance + payouts (g.balls.filter (settles P g.pins g.binCenters))) := by
  simp [UpdateBalls, sweep_balance]

theorem UpdateBalls_range {P : Platform} (g : Game P) (h : InInt32 g.balance) :
    InInt32 (UpdateBalls g).balance := by
  simp only [UpdateBalls]
  exact sweep_range P g.pins g.binCenters _ g.balls h

theorem UpdateBalls_lastWin {P : Platform} (g : Game P) :
    (UpdateBalls g).lastWin =
      (((g.balls.filter (settles P g.pins g.binCenters)).map winInfo).getLastD g.lastWin) := by
  simp [UpdateBalls, sweep_lastWin]

theorem UpdateBalls_frame {P : Platform} (g : Game P) :
    (UpdateBalls g).pins = g.pins ∧ (UpdateBalls g).binCenters = g.binCenters ∧
      (UpdateBalls g).currentBet = g.currentBet ∧ (UpdateBalls g).betIndex = g.betIndex ∧
      (UpdateBalls g).rng = g.rng := by
  simp [UpdateBalls]

/-- Payouts credited by a tick plus payouts still owed after it are the
payouts owed before it. -/
theorem tick_ledger (P : Platform) (pins : List Pin) (bc : List Vector2) (bs : List Ball) :
    payouts (bs.filter (settles P pins bc)) + inFlight (survivors P pins bc bs) =
      inFlight bs := by
  induction bs with
  | nil => simp [payouts, inFlight, survivors]
  | cons b bs ih =>
    have hw : (stepBall P pins bc b).winAmount = b.winAmount := by
      have := stepBall_ticket P pins bc b
      simp only [Ball.ticket, Prod.mk.injEq] at this
      exact this.2.1
    have ha := stepBall_active P pins bc b
    simp only [payouts, inFlight, survivors, List.filter_filter, Bool.and_self] at ih ⊢
    simp only [List.map_cons, List.filter_cons]
    cases hb : b.active <;> cases hs : settles P pins bc b
    · have ha2 : (stepBall P pins bc b).active = false := by simpa [hb, hs] using ha
      simp only [hb, hs, ha2, Bool.false_eq_true, if_false]
      exact ih
    · simp [settles, hb] at hs
    · have ha2 : (stepBall P pins bc b).active = true := by simpa [hb, hs] using ha
      simp only [hb, hs, ha2, hw, Bool.false_eq_true, if_false, if_true, List.map_cons,
        List.sum_cons]
      linarith
    · have ha2 : (stepBall P pins bc b).active = false := by simpa [hb, hs] using ha
      simp only [hb, hs, ha2, Bool.false_eq_true, if_false, if_true, List.map_cons,
        List.sum_cons]
      linarith

/-! ## Evaluated constants -/

theorem PRIZE_MULTIPLIERS_length : PRIZE_MULTIPLIERS.length = 21 := by
  simp [PRIZE_MULTIPLIERS, multiplierLiterals]

theorem boardBinCenters_length : boardBinCenters.length = 21 := by decide!

theorem outcomeWeights_length (P : Platform) : (outcomeWeights P).length = 21 := by
  simp [outcomeWeights, PRIZE_MULTIPLIERS_length]

theorem WIN_DISPLAY_DURATION_eq : WIN_DISPLAY_DURATION = 5 / 2 := by decide!

theorem EXIT_Y_eq : EXIT_Y = 1180 := by decide!

theorem weightArg_ge : ∀ i ∈ List.range 21, -87 ≤ weightArg i := by decide!

/-- On the bet ladder the float product of line 126, truncated, is the floor
of the exact product, with the multiplier read as the decimal literal or as
the `float` it denotes. -/
theorem payout_table : ∀ bet ∈ BET_AMOUNTS, ∀ k ∈ List.range 21,
    payout bet (k : Nat) = ⌊(bet : ℚ) * multiplierLiterals.getD k 0⌋ ∧
      payout bet (k : Nat) = ⌊(bet : ℚ) * PRIZE_MULTIPLIERS.getD k 0⌋ := by
  decide!

theorem payout_floor (bet bin : Int) (hbet : bet ∈ BET_AMOUNTS) (h0 : 0 ≤ bin) (h1 : bin < 21) :
    payout bet bin = ⌊(bet : ℚ) * multiplierLiterals.getD bin.toNat 0⌋ ∧
      payout bet bin = ⌊(bet : ℚ) * PRIZE_MULTIPLIERS.getD bin.toNat 0⌋ := by
  have hk : bin.toNat ∈ List.range 21 := by
    rw [List.mem_range]; omega
  have h := payout_table bet hbet bin.toNat hk
  rwa [Int.toNat_of_nonneg h0] at h

/-! ## The outcome is a valid bin -/

theorem outcomeWeights_pos (P : Platform) : ∀ w ∈ outcomeWeights P, 0 < w := by
  intro w hw
  simp only [outcomeWeights, PRIZE_MULTIPLIERS_length, List.mem_map] at hw
  obtain ⟨i, hi, rfl⟩ := hw
  exact P.exp_pos _ (weightArg_ge i hi)

theorem PrecalculateOutcome_range (P : Platform) (r : P.Rng) :
    0 ≤ (PrecalculateOutcome P r).1 ∧ (PrecalculateOutcome P r).1 < 21 := by
  have hpos := outcomeWeights_pos P
  have hlen := outcomeWeights_length P
  have hex : ∃ x ∈ outcomeWeights P, 0 < x := by
    cases hw : outcomeWeights P with
    | nil => rw [hw] at hlen; simp at hlen
    | cons x xs => exact ⟨x, by simp, hpos x (by simp [hw])⟩
  have h := P.discrete_range (outcomeWeights P) r (fun x hx => le_of_lt (hpos x hx)) hex
  rw [hlen] at h
  exact_mod_cast h

theorem newBall_fields {P : Platform} (g : Game P) :
    (newBall g).1.active = true ∧ (newBall g).1.betAmount = g.currentBet ∧
      (newBall g).1.finalBin = (PrecalculateOutcome P g.rng).1 ∧
      (newBall g).1.winAmount = payout g.currentBet (newBall g).1.finalBin := by
  simp [newBall]

/-! ## The bet ladder -/

theorem ladder_mem {P : Platform} {g : Game P} (h : Ladder g) : g.currentBet ∈ BET_AMOUNTS := by
  obtain ⟨h0, h1, h2⟩ := h
  have hlen : (BET_AMOUNTS.length : Int) = 8 := by simp [BET_AMOUNTS]
  rw [hlen] at h1
  have hc : g.betIndex = 0 ∨ g.betIndex = 1 ∨ g.betIndex = 2 ∨ g.betIndex = 3 ∨
      g.betIndex = 4 ∨ g.betIndex = 5 ∨ g.betIndex = 6 ∨ g.betIndex = 7 := by omega
  rcases hc with hc | hc | hc | hc | hc | hc | hc | hc <;>
    · rw [hc] at h2
      rw [← h2]
      simp [BET_AMOUNTS]

theorem DropBall_frame {P : Platform} (g : Game P) :
    (DropBall g).betIndex = g.betIndex ∧ (DropBall g).currentBet = g.currentBet ∧
      (DropBall g).pins = g.pins ∧ (DropBall g).binCenters = g.binCenters ∧
      (DropBall g).lastWin = g.lastWin := by
  unfold DropBall
  split <;> simp

theorem pressDrop_frame {P : Platform} (i : Input) (g : Game P) :
    (pressDrop i g).betIndex = g.betIndex ∧ (pressDrop i g).currentBet = g.currentBet ∧
      (pressDrop i g).pins = g.pins ∧ (pressDrop i g).binCenters = g.binCenters ∧
      (pressDrop i g).lastWin = g.lastWin := by
  unfold pressDrop
  split
  · exact DropBall_frame g
  · simp

theorem pressUp_frame {P : Platform} (i : Input) (g : Game P) :
    (pressUp i g).balls = g.balls ∧ (pressUp i g).balance = g.balance ∧
      (pressUp i g).pins = g.pins ∧ (pressUp i g).binCenters = g.binCenters ∧
      (pressUp i g).lastWin = g.lastWin ∧ (pressUp i g).rng = g.rng := by
  unfold pressUp
  split <;> simp

theorem pressDown_frame {P : Platform} (i : Input) (g : Game P) :
    (pressDown i g).balls = g.balls ∧ (pressDown i g).balance = g.balance ∧
      (pressDown i g).pins = g.pins ∧ (pressDown i g).binCenters = g.binCenters ∧
      (pressDown i g).lastWin = g.lastWin ∧ (pressDown i g).rng = g.rng := by
  unfold pressDown
  split <;> simp

theorem UpdateTimers_frame {P : Platform} (dt : ℚ) (g : Game P) :
    (UpdateTimers dt g).balls = g.balls ∧ (UpdateTimers dt g).balance = g.balance ∧
      (UpdateTimers dt g).pins = g.pins ∧ (UpdateTimers dt g).binCenters = g.binCenters ∧
      (UpdateTimers dt g).currentBet = g.currentBet ∧
      (UpdateTimers dt g).betIndex = g.betIndex ∧ (UpdateTimers dt g).rng = g.rng := by
  unfold UpdateTimers
  split <;> simp

theorem toSizeT_small (i : Int) (h0 : 0 ≤ i) (h1 : i < 8) : toSizeT i = i := by
  unfold toSizeT
  exact Int.emod_eq_of_lt h0 (by omega)

theorem ladder_pressUp {P : Platform} (i : Input) {g : Game P} (h : Ladder g) :
    Ladder (pressUp i g) := by
  obtain ⟨h0, h1, h2⟩ := h
  have hlen : (BET_AMOUNTS.length : Int) = 8 := by simp [BET_AMOUNTS]
  rw [hlen] at h1
  unfold Plinko.pressUp
  split
  · rename_i hc
    rw [toSizeT_small _ h0 h1, hlen] at hc
    refine ⟨?_, ?_, rfl⟩
    · show 0 ≤ g.betIndex + 1
      omega
    · show g.betIndex + 1 < (BET_AMOUNTS.length : Int)
      rw [hlen]; omega
  · exact ⟨h0, by rw [hlen]; exact h1, h2⟩

theorem ladder_pressDown {P : Platform} (i : Input) {g : Game P} (h : Ladder g) :
    Ladder (pressDown i g) := by
  obtain ⟨h0, h1, h2⟩ := h
  unfold Plinko.pressDown
  split
  · rename_i hc
    refine ⟨?_, ?_, rfl⟩
    · show 0 ≤ g.betIndex - 1
      omega
    · show g.betIndex - 1 < (BET_AMOUNTS.length : Int)
      omega
  · exact ⟨h0, h1, h2⟩

theorem ladder_of_frame {P : Platform} {g g' : Game P} (h : Ladder g)
    (hi : g'.betIndex = g.betIndex) (hc : g'.currentBet = g.currentBet) : Ladder g' := by
  unfold Ladder at h ⊢
  rw [hi, hc]
  exact h

theorem ladder_exec {P : Platform} (o : Op) {g : Game P} (h : Ladder g) : Ladder (o.exec g) := by
  cases o with
  | dropBall => exact ladder_of_frame h (DropBall_frame g).1 (DropBall_frame g).2.1
  | updateBalls => exact ladder_of_frame h (UpdateBalls_frame g).2.2.2.1 (UpdateBalls_frame g).2.2.1
  | updateTimers dt =>
    exact ladder_of_frame h (UpdateTimers_frame dt g).2.2.2.2.2.1 (UpdateTimers_frame dt g).2.2.2.2.1
  | handleInput i =>
    exact ladder_pressDown i (ladder_pressUp i
      (ladder_of_frame h (pressDrop_frame i g).1 (pressDrop_frame i g).2.1))

theorem ladder_run {P : Platform} (ops : List Op) {g : Game P} (h : Ladder g) :
    Ladder (run ops g) := by
  induction ops generalizing g with
  | nil => exact h
  | cons o os ih => exact ih (ladder_exec o h)

theorem ladder_initial (P : Platform) (seed : P.Rng) : Ladder (initial P seed) := by
  simp [Ladder, Plinko.initial, InitializeGame, startup, BET_AMOUNTS]

/-! ## The ledger along a run -/

theorem inFlight_append (xs ys : List Ball) : inFlight (xs ++ ys) = inFlight xs + inFlight ys := by
  simp [inFlight, payouts]

theorem inFlight_single (b : Ball) (h : b.active = true) : inFlight [b] = b.winAmount := by
  simp [inFlight, payouts, h]

theorem DropBall_refused {P : Platform} (g : Game P) (h : g.balance < g.currentBet) :
    DropBall g = g := by
  simp [DropBall, h]

theorem DropBall_accepted {P : Platform} (g : Game P) (h : g.currentBet ≤ g.balance) :
    DropBall g = { g with balance := g.balance - g.currentBet,
                          balls := g.balls ++ [(newBall g).1], rng := (newBall g).2 } := by
  have : ¬ g.balance < g.currentBet := not_lt.mpr h
  simp [DropBall, this]

theorem pressDrop_eq {P : Platform} (i : Input) (g : Game P) :
    pressDrop i g = if i.drop then DropBall g else g := by
  unfold pressDrop
  by_cases hd : i.drop = true
  · by_cases hb : g.currentBet ≤ g.balance
    · simp [hd, hb]
    · simp [hd, hb, DropBall_refused g (not_le.mp hb)]
  · simp [hd]

theorem spawn_dropBall {P : Platform} (g : Game P) :
    Op.dropBall.spawn g = if g.balance < g.currentBet then [] else [(newBall g).1] := rfl

theorem spawn_handleInput {P : Platform} (i : Input) (g : Game P) :
    (Op.handleInput i).spawn g =
      if i.drop ∧ g.currentBet ≤ g.balance then [(newBall g).1] else [] := rfl

theorem spawn_updateBalls {P : Platform} (g : Game P) : Op.updateBalls.spawn g = [] := rfl

theorem spawn_updateTimers {P : Platform} (dt : ℚ) (g : Game P) :
    (Op.updateTimers dt).spawn g = [] := rfl

theorem pressDrop_balls {P : Platform} (i : Input) (g : Game P) :
    (pressDrop i g).balls = g.balls ++ (Op.handleInput i).spawn g ∧
      (pressDrop i g).balance = g.balance - wagers ((Op.handleInput i).spawn g) := by
  rw [spawn_handleInput]
  unfold pressDrop
  by_cases h : i.drop = true ∧ g.currentBet ≤ g.balance
  · rw [if_pos h, if_pos h, DropBall_accepted g h.2]
    simp [wagers, (newBall_fields g).2.1]
  · rw [if_neg h, if_neg h]
    simp [wagers]

theorem exec_balls {P : Platform} (o : Op) (g : Game P) :
    (o = Op.updateBalls ∨ (o.exec g).balls = g.balls ++ o.spawn g) := by
  cases o with
  | dropBall =>
    right
    show (DropBall g).balls = g.balls ++ Op.dropBall.spawn g
    rw [spawn_dropBall]
    by_cases h : g.balance < g.currentBet
    · simp [DropBall_refused g h, h]
    · rw [DropBall_accepted g (not_lt.mp h)]
      simp [h]
  | updateBalls => left; rfl
  | updateTimers dt =>
    right
    show (UpdateTimers dt g).balls = g.balls ++ (Op.updateTimers dt).spawn g
    simp [spawn_updateTimers, (UpdateTimers_frame dt g).1]
  | handleInput i =>
    right
    show (HandleInput i g).balls = g.balls ++ (Op.handleInput i).spawn g
    unfold HandleInput
    rw [(pressDown_frame i _).1, (pressUp_frame i _).1, (pressDrop_balls i g).1]

theorem spawn_fields {P : Platform} (o : Op) (g : Game P) (hL : Ladder g) :
    ∀ b ∈ o.spawn g, b.active = true ∧ b.betAmount ∈ BET_AMOUNTS ∧
      (0 ≤ b.finalBin ∧ b.finalBin < 21) ∧ b.winAmount = payout b.betAmount b.finalBin := by
  have key : (newBall g).1.active = true ∧ (newBall g).1.betAmount ∈ BET_AMOUNTS ∧
      (0 ≤ (newBall g).1.finalBin ∧ (newBall g).1.finalBin < 21) ∧
      (newBall g).1.winAmount = payout (newBall g).1.betAmount (newBall g).1.finalBin := by
    obtain ⟨ha, hb, hf, hw⟩ := newBall_fields g
    refine ⟨ha, ?_, ?_, ?_⟩
    · rw [hb]; exact ladder_mem hL
    · rw [hf]; exact PrecalculateOutcome_range P g.rng
    · rw [hw, hb]
  intro b hb
  cases o with
  | dropBall =>
    rw [spawn_dropBall] at hb
    by_cases h : g.balance < g.currentBet
    · simp [h] at hb
    · simp only [h, if_false, List.mem_singleton] at hb
      rw [hb]; exact key
  | updateBalls => simp [spawn_updateBalls] at hb
  | updateTimers dt => simp [spawn_updateTimers] at hb
  | handleInput i =>
    rw [spawn_handleInput] at hb
    by_cases h : i.drop = true ∧ g.currentBet ≤ g.balance
    · simp only [h, and_self, if_true, List.mem_singleton] at hb
      rw [hb]; exact key
    · simp [h] at hb

theorem exec_ledger {P : Platform} (o : Op) (g : Game P) :
    wrap32 ((o.exec g).balance + inFlight (o.exec g).balls) =
      wrap32 (g.balance + inFlight g.balls - wagers (o.spawn g) + payouts (o.spawn g)) := by
  cases o with
  | dropBall =>
    show wrap32 ((DropBall g).balance + inFlight (DropBall g).balls) = _
    congr 1
    rw [spawn_dropBall]
    by_cases h : g.balance < g.currentBet
    · simp [DropBall_refused g h, h, wagers, payouts]
    · rw [DropBall_accepted g (not_lt.mp h)]
      simp only [h, if_false, inFlight_append, inFlight_single _ (newBall_fields g).1]
      simp only [wagers, payouts, List.map_cons, List.map_nil, List.sum_cons, List.sum_nil,
        (newBall_fields g).2.1]
      ring
  | updateBalls =>
    show wrap32 ((UpdateBalls g).balance + inFlight (UpdateBalls g).balls) = _
    have h1 := UpdateBalls_balance g
    have h2 := tick_ledger P g.pins g.binCenters g.balls
    rw [UpdateBalls_balls]
    simp only [spawn_updateBalls, wagers, payouts, List.map_nil, List.sum_nil] at h1 h2 ⊢
    unfold wrap32 at h1 ⊢
    omega
  | updateTimers dt =>
    show wrap32 ((UpdateTimers dt g).balance + inFlight (UpdateTimers dt g).balls) = _
    congr 1
    rw [(UpdateTimers_frame dt g).1, (UpdateTimers_frame dt g).2.1]
    simp [spawn_updateTimers, wagers, payouts]
  | handleInput i =>
    show wrap32 ((HandleInput i g).balance + inFlight (HandleInput i g).balls) = _
    congr 1
    unfold HandleInput
    rw [(pressDown_frame i _).1, (pressUp_frame i _).1, (pressDown_frame i _).2.1,
      (pressUp_frame i _).2.1, (pressDrop_balls i g).1, (pressDrop_balls i g).2, inFlight_append]
    have hin : inFlight ((Op.handleInput i).spawn g) = payouts ((Op.handleInput i).spawn g) := by
      rw [spawn_handleInput]
      by_cases h : i.drop = true ∧ g.currentBet ≤ g.balance
      · rw [if_pos h]
        exact inFlight_single _ (newBall_fields g).1 |>.trans (by simp [payouts])
      · rw [if_neg h]
        simp [inFlight, payouts]
    rw [hin]
    ring

theorem run_cons {P : Platform} (o : Op) (os : List Op) (g : Game P) :
    run (o :: os) g = run os (o.exec g) := rfl

theorem run_ledger {P : Platform} (ops : List Op) (g : Game P) :
    wrap32 ((run ops g).balance + inFlight (run ops g).balls) =
      wrap32 (g.balance + inFlight g.balls - wagers (spawned ops g) + payouts (spawned ops g)) := by
  induction ops generalizing g with
  | nil => simp [run, spawned, wagers, payouts]
  | cons o os ih =>
    have h1 := ih (o.exec g)
    have h2 := exec_ledger o g
    rw [run_cons]
    simp only [spawned, wagers_append, payouts_append]
    unfold wrap32 at h1 h2 ⊢
    omega

theorem ladder_bet_pos {P : Platform} {g : Game P} (h : Ladder g) : 0 < g.currentBet := by
  have hm := ladder_mem h
  simp only [BET_AMOUNTS, List.mem_cons, List.mem_singleton, List.not_mem_nil, or_false] at hm
  omega

theorem DropBall_range {P : Platform} (g : Game P) (hL : Ladder g) (hB : InInt32 g.balance) :
    InInt32 (DropBall g).balance := by
  by_cases h : g.balance < g.currentBet
  · rw [DropBall_refused g h]
    exact hB
  · rw [DropBall_accepted g (not_lt.mp h)]
    have hp := ladder_bet_pos hL
    unfold InInt32 at hB ⊢
    show -2147483648 ≤ g.balance - g.currentBet ∧ g.balance - g.currentBet < 2147483648
    omega

theorem exec_range {P : Platform} (o : Op) (g : Game P) (hL : Ladder g)
    (hB : InInt32 g.balance) : InInt32 (o.exec g).balance := by
  cases o with
  | dropBall => exact DropBall_range g hL hB
  | updateBalls => exact UpdateBalls_range g hB
  | updateTimers dt =>
    show InInt32 (UpdateTimers dt g).balance
    rw [(UpdateTimers_frame dt g).2.1]
    exact hB
  | handleInput i =>
    show InInt32 (HandleInput i g).balance
    unfold HandleInput
    rw [(pressDown_frame i _).2.1, (pressUp_frame i _).2.1, pressDrop_eq]
    split
    · exact DropBall_range g hL hB
    · exact hB

theorem run_range {P : Platform} (ops : List Op) (g : Game P) (hL : Ladder g)
    (hB : InInt32 g.balance) : InInt32 (run ops g).balance := by
  induction ops generalizing g with
  | nil => exact hB
  | cons o os ih => exact ih (o.exec g) (ladder_exec o hL) (exec_range o g hL hB)

/-- With no ball in the collection before and after a run, the balance after
it is the balance before it minus the wagers plus the payouts of the balls
spawned, reduced to the `int` range. -/
theorem run_balance {P : Platform} (ops : List Op) (g : Game P) (hL : Ladder g)
    (hB : InInt32 g.balance) (h0 : g.balls = []) (hend : (run ops g).balls = []) :
    (run ops g).balance =
      wrap32 (g.balance - wagers (spawned ops g) + payouts (spawned ops g)) := by
  have h := run_ledger ops g
  rw [hend, h0] at h
  simp only [inFlight, payouts, List.filter_nil, List.map_nil, List.sum_nil, add_zero] at h
  rw [wrap32_of_range (run_range ops g hL hB)] at h
  exact h

theorem run_ticks_balls {P : Platform} (n : Nat) (g : Game P) :
    (run (List.replicate n Op.updateBalls) g).balls =
      (survivors P g.pins g.binCenters)^[n] g.balls := by
  induction n generalizing g with
  | zero => rfl
  | succ n ih =>
    rw [List.replicate_succ, run_cons, Function.iterate_succ_apply]
    show (run (List.replicate n Op.updateBalls) (UpdateBalls g)).balls = _
    rw [ih, (UpdateBalls_frame g).1, (UpdateBalls_frame g).2.1, UpdateBalls_balls]

theorem spawned_fields {P : Platform} (ops : List Op) (g : Game P) (hL : Ladder g) :
    ∀ b ∈ spawned ops g, b.active = true ∧ b.betAmount ∈ BET_AMOUNTS ∧
      (0 ≤ b.finalBin ∧ b.finalBin < 21) ∧ b.winAmount = payout b.betAmount b.finalBin := by
  induction ops generalizing g with
  | nil => simp [spawned]
  | cons o os ih =>
    intro b hb
    simp only [spawned, List.mem_append] at hb
    rcases hb with hb | hb
    · exact spawn_fields o g hL b hb
    · exact ih (o.exec g) (ladder_exec o hL) b hb

theorem survivors_active (P : Platform) (pins : List Pin) (bc : List Vector2) (bs : List Ball) :
    ∀ b ∈ survivors P pins bc bs, b.active = true := by
  intro b hb
  simp only [survivors, List.mem_filter] at hb
  exact hb.2

theorem survivors_eq (P : Platform) (pins : List Pin) (bc : List Vector2) (bs : List Ball) :
    survivors P pins bc bs =
      (bs.filter fun b => b.active && !settles P pins bc b).map (stepBall P pins bc) := by
  induction bs with
  | nil => simp [survivors]
  | cons b bs ih =>
    simp only [survivors, List.map_cons, List.filter_cons] at ih ⊢
    rw [stepBall_active, ih]
    split <;> simp

/-! ## Conservation -/

/-- C1, as the code has it.  From a state on the bet ladder with an `int`
balance B and no ball in the collection, after any sequence of calls (drops,
ticks, timer updates, input frames) that ends with the collection empty again,
the balance is B minus the wagers of the balls spawned plus their payouts,
reduced modulo `2 ^ 32` to the `int` range, and it is exactly B minus the
wagers plus the payouts whenever that value is in the `int` range; every
spawned ball carries a stake of the ladder as wager and, as payout, the floor
of wager times the multiplier of its bin; a tick adds to the balance, in `int`
arithmetic, exactly the payouts of the balls that settle in it and keeps
exactly the other active balls, so what is credited plus what is still owed
does not change and a settled ball is gone. -/
theorem conservation {P : Platform} (ops : List Op) (g : Game P) (hL : Ladder g)
    (hB : InInt32 g.balance) (h0 : g.balls = []) (hend : (run ops g).balls = []) :
    (run ops g).balance =
      wrap32 (g.balance - wagers (spawned ops g) + payouts (spawned ops g)) ∧
    (InInt32 (g.balance - wagers (spawned ops g) + payouts (spawned ops g)) →
      (run ops g).balance = g.balance - wagers (spawned ops g) + payouts (spawned ops g)) ∧
    (∀ b ∈ spawned ops g, b.betAmount ∈ BET_AMOUNTS ∧
      (0 ≤ b.finalBin ∧ b.finalBin < (PRIZE_MULTIPLIERS.length : Int)) ∧
      b.winAmount = ⌊(b.betAmount : ℚ) * multiplierLiterals.getD b.finalBin.toNat 0⌋ ∧
      b.winAmount = ⌊(b.betAmount : ℚ) * PRIZE_MULTIPLIERS.getD b.finalBin.toNat 0⌋) ∧
    (∀ s : Game P,
      wrap32 (UpdateBalls s).balance =
        wrap32 (s.balance + payouts (s.balls.filter (settles P s.pins s.binCenters))) ∧
      (InInt32 s.balance →
        InInt32 (s.balance + payouts (s.balls.filter (settles P s.pins s.binCenters))) →
        (UpdateBalls s).balance =
          s.balance + payouts (s.balls.filter (settles P s.pins s.binCenters))) ∧
      (UpdateBalls s).balls =
        (s.balls.filter fun b => b.active && !settles P s.pins s.binCenters b).map
          (stepBall P s.pins s.binCenters) ∧
      (∀ b ∈ (UpdateBalls s).balls, b.active = true) ∧
      wrap32 ((UpdateBalls s).balance + inFlight (UpdateBalls s).balls) =
        wrap32 (s.balance + inFlight s.balls)) := by
  have hrun := run_balance ops g hL hB h0 hend
  refine ⟨hrun, ?_, ?_, ?_⟩
  · intro hfit
    rw [hrun, wrap32_of_range hfit]
  · intro b hb
    obtain ⟨_, hbet, hbin, hw⟩ := spawned_fields ops g hL b hb
    have hf := payout_floor b.betAmount b.finalBin hbet hbin.1 hbin.2
    rw [PRIZE_MULTIPLIERS_length]
    exact ⟨hbet, hbin, hw.trans hf.1, hw.trans hf.2⟩
  · intro s
    refine ⟨UpdateBalls_balance s, ?_, ?_, ?_, ?_⟩
    · intro hs hfit
      have h := UpdateBalls_balance s
      rw [wrap32_of_range (UpdateBalls_range s hs), wrap32_of_range hfit] at h
      exact h
    · rw [UpdateBalls_balls, survivors_eq]
    · rw [UpdateBalls_balls]
      exact survivors_active P s.pins s.binCenters s.balls
    · have h := exec_ledger Op.updateBalls s
      simpa [spawn_updateBalls, wagers, payouts] using h

/-- On the sample platform the ball dropped from the startup globals has left
the collection after ninety ticks. -/
theorem fall_survivors :
    (survivors samplePlatform [] [])^[90] [(newBall (startup samplePlatform (0 : Nat))).1] =
      [] := by
  decide!

theorem fall_clears (B : Int) (hB : 10 ≤ B) : (run dropAndFall (fallGame B)).balls = [] := by
  have hacc : (fallGame B).currentBet ≤ (fallGame B).balance := hB
  unfold dropAndFall
  rw [run_cons]
  show (run (List.replicate 90 Op.updateBalls) (DropBall (fallGame B))).balls = []
  rw [run_ticks_balls, DropBall_accepted _ hacc]
  exact fall_survivors

/-- Witness of C1: on the sample platform, from the startup globals (balance
1000, bet 10), one drop and ninety ticks leave no ball and the balance
1000 - 10 + 10000 = 10990. -/
theorem conservation_witness :
    Ladder (fallGame 1000) ∧ InInt32 (fallGame 1000).balance ∧
    (fallGame 1000).balls = [] ∧
    (run dropAndFall (fallGame 1000)).balls = [] ∧
    InInt32 ((fallGame 1000).balance - wagers (spawned dropAndFall (fallGame 1000))
      + payouts (spawned dropAndFall (fallGame 1000))) ∧
    (run dropAndFall (fallGame 1000)).balance =
      (fallGame 1000).balance - wagers (spawned dropAndFall (fallGame 1000))
        + payouts (spawned dropAndFall (fallGame 1000)) ∧
    (fallGame 1000).balance - wagers (spawned dropAndFall (fallGame 1000))
      + payouts (spawned dropAndFall (fallGame 1000)) = 10990 :=
  have hL : Ladder (fallGame 1000) := by
    simp [Ladder, fallGame, startup, BET_AMOUNTS]
  have hB : InInt32 (fallGame 1000).balance := by
    unfold InInt32
    decide
  have hend : (run dropAndFall (fallGame 1000)).balls = [] := fall_clears 1000 (by decide)
  have hval : (fallGame 1000).balance - wagers (spawned dropAndFall (fallGame 1000))
      + payouts (spawned dropAndFall (fallGame 1000)) = 10990 := by
    decide!
  have hfit : InInt32 ((fallGame 1000).balance - wagers (spawned dropAndFall (fallGame 1000))
      + payouts (spawned dropAndFall (fallGame 1000))) := by
    rw [hval]
    unfold InInt32
    decide
  ⟨hL, hB, rfl, hend, hfit,
    (conservation dropAndFall (fallGame 1000) hL hB rfl hend).2.1 hfit, hval⟩

/-- Counterexample to C1 as stated: from the startup globals with the largest
`int` as balance, one drop (wager 10, payout 10000) and ninety ticks leave no
ball, and the balance is -2147473659, not 2147483647 - 10 + 10000. -/
theorem conservation_counterexample :
    (fallGame 2147483647).balls = [] ∧
    (run dropAndFall (fallGame 2147483647)).balls = [] ∧
    wagers (spawned dropAndFall (fallGame 2147483647)) = 10 ∧
    payouts (spawned dropAndFall (fallGame 2147483647)) = 10000 ∧
    (run dropAndFall (fallGame 2147483647)).balance = -2147473659 ∧
    (run dropAndFall (fallGame 2147483647)).balance ≠
      (fallGame 2147483647).balance - wagers (spawned dropAndFall (fallGame 2147483647))
        + payouts (spawned dropAndFall (fallGame 2147483647)) := by
  have hL : Ladder (fallGame 2147483647) := by
    simp [Ladder, fallGame, startup, BET_AMOUNTS]
  have hB : InInt32 (fallGame 2147483647).balance := by
    unfold InInt32
    decide
  have hend := fall_clears 2147483647 (by decide)
  have hw : wagers (spawned dropAndFall (fallGame 2147483647)) = 10 := by decide!
  have hp : payouts (spawned dropAndFall (fallGame 2147483647)) = 10000 := by decide!
  have hbal := run_balance dropAndFall (fallGame 2147483647) hL hB rfl hend
  rw [hw, hp] at hbal
  have hv : (run dropAndFall (fallGame 2147483647)).balance = -2147473659 :=
    hbal.trans (by decide)
  refine ⟨rfl, hend, hw, hp, hv, ?_⟩
  rw [hv, hw, hp]
  decide

/-! ## The balance check of `DropBall` -/

/-- C2. `DropBall` with the current bet above the balance returns the state
unchanged (also when the bet is the balance plus one); with the bet at most
the balance (also when they are equal) it debits the balance by the bet and
appends to the collection exactly one ball, active, whose wager is the bet;
a drop request of `HandleInput` is `DropBall`. -/
theorem drop_guard {P : Platform} (g : Game P) :
    (g.balance < g.currentBet → DropBall g = g) ∧
    (g.currentBet = g.balance + 1 → DropBall g = g) ∧
    (g.currentBet ≤ g.balance →
      (DropBall g).balance = g.balance - g.currentBet ∧
      ∃ b : Ball, (DropBall g).balls = g.balls ++ [b] ∧ b.betAmount = g.currentBet ∧
        b.active = true) ∧
    (g.currentBet = g.balance →
      (DropBall g).balance = 0 ∧ (DropBall g).balls.length = g.balls.length + 1) ∧
    (∀ i : Input, i.drop = true → pressDrop i g = DropBall g) := by
  refine ⟨DropBall_refused g, fun h => DropBall_refused g (by omega), ?_, ?_, ?_⟩
  · intro h
    rw [DropBall_accepted g h]
    exact ⟨rfl, (newBall g).1, rfl, (newBall_fields g).2.1, (newBall_fields g).1⟩
  · intro h
    rw [DropBall_accepted g (le_of_eq h)]
    simp [h]
  · intro i hi
    rw [pressDrop_eq, if_pos hi]

/-- Witness of C2: wager 100 at balance 50 leaves the balance at 50 and
creates no ball. -/
theorem drop_guard_witness :
    shortGame.balance < shortGame.currentBet ∧ DropBall shortGame = shortGame ∧
      (DropBall shortGame).balance = 50 ∧ (DropBall shortGame).balls = [] :=
  have hlt : shortGame.balance < shortGame.currentBet := by decide
  have h := (drop_guard shortGame).1 hlt
  ⟨hlt, h, by rw [h]; rfl, by rw [h]; rfl⟩

/-! ## Settlement -/

theorem getLastD_append_cons {α : Type} (xs : List α) (y : α) (ys : List α) (d : α) :
    (xs ++ y :: ys).getLastD d = ys.getLastD y := by
  induction ys generalizing xs y with
  | nil => simp
  | cons z zs ih =>
    have : xs ++ y :: z :: zs = (xs ++ [y]) ++ z :: zs := by simp
    rw [this, ih (xs ++ [y]) z]
    cases zs with
    | nil => simp
    | cons h t =>
      rcases hl : (h :: t).getLast? with _ | x
      · simp at hl
      · simp [List.getLast?_cons_cons, hl]

theorem settles_of_exit {P : Platform} (pins : List Pin) (bc : List Vector2) (b : Ball)
    (hact : b.active = true) (hexit : EXIT_Y < (moveBall P pins bc b).position.y) :
    settles P pins bc b = true := by
  simp [settles, hact, exited, hexit]

/-- The balance after a tick in which the ball `b` settles. -/
theorem settle_balance {P : Platform} (g : Game P) (pre post : List Ball) (b : Ball)
    (hballs : g.balls = pre ++ b :: post) (hs : settles P g.pins g.binCenters b = true) :
    (UpdateBalls g).balance =
      wrap32 (g.balance + b.winAmount +
        payouts ((pre ++ post).filter (settles P g.pins g.binCenters))) := by
  have hmod := UpdateBalls_balance g
  have hrange : InInt32 (UpdateBalls g).balance := by
    simp only [UpdateBalls, hballs, sweep_append, sweep_cons]
    apply sweep_range
    rw [visit_balance, hs, if_pos rfl]
    exact wrap32_range _
  rw [wrap32_of_range hrange, hballs] at hmod
  rw [hmod]
  congr 1
  simp only [List.filter_append, List.filter_cons, hs, if_true, payouts_append, payouts_cons]
  ring

/-- C3, as the code has it.  Let `b` be an active ball of the collection whose
vertical position after the integration and the pin collisions of a tick
exceeds the exit threshold.  Its iteration of the loop of `UpdateBalls` adds
its payout to the balance in `int` arithmetic, writes (payout, wager, bin,
2.5) to `lastWin` and clears its active flag; after the call the balance is
the old balance plus that payout and the payouts of the other balls settling
in the same call, reduced modulo `2 ^ 32` to the `int` range, hence exactly
that sum whenever the sum is in the `int` range; the ball is no longer in the
collection, and `lastWin` holds this record unless a ball placed later in the
collection settled in the same call too, whose record then replaces it. -/
theorem settlement {P : Platform} (g : Game P) (pre post : List Ball) (b : Ball)
    (hballs : g.balls = pre ++ b :: post) (hact : b.active = true)
    (hexit : EXIT_Y < (moveBall P g.pins g.binCenters b).position.y) :
    EXIT_Y = START_Y + (NUM_ROWS : ℚ) * PIN_SPACING_Y + 50 ∧
    (∀ l : Loop,
      (visit P g.pins g.binCenters l b).balance = wrap32 (l.balance + b.winAmount) ∧
      (InInt32 (l.balance + b.winAmount) →
        (visit P g.pins g.binCenters l b).balance = l.balance + b.winAmount) ∧
      (visit P g.pins g.binCenters l b).lastWin =
        { amountWon := b.winAmount, betAmount := b.betAmount, finalBin := b.finalBin,
          displayTimer := 5 / 2 }) ∧
    (stepBall P g.pins g.binCenters b).active = false ∧
    (UpdateBalls g).balance =
      wrap32 (g.balance + b.winAmount +
        payouts ((pre ++ post).filter (settles P g.pins g.binCenters))) ∧
    (InInt32 (g.balance + b.winAmount +
        payouts ((pre ++ post).filter (settles P g.pins g.binCenters))) →
      (UpdateBalls g).balance =
        g.balance + b.winAmount +
          payouts ((pre ++ post).filter (settles P g.pins g.binCenters))) ∧
    (UpdateBalls g).balls =
      survivors P g.pins g.binCenters pre ++ survivors P g.pins g.binCenters post ∧
    (UpdateBalls g).lastWin =
      (((post.filter (settles P g.pins g.binCenters)).map winInfo).getLastD
        { amountWon := b.winAmount, betAmount := b.betAmount, finalBin := b.finalBin,
          displayTimer := 5 / 2 }) := by
  have hs := settles_of_exit g.pins g.binCenters b hact hexit
  have hstep : (stepBall P g.pins g.binCenters b).active = false := by
    rw [stepBall_active, hs, hact]; rfl
  have hinfo : winInfo b =
      { amountWon := b.winAmount, betAmount := b.betAmount, finalBin := b.finalBin,
        displayTimer := 5 / 2 } := by
    simp [winInfo, WIN_DISPLAY_DURATION_eq]
  have hbal := settle_balance g pre post b hballs hs
  refine ⟨by decide!, ?_, hstep, hbal, ?_, ?_, ?_⟩
  · intro l
    rw [visit_balance, visit_lastWin, hs, hinfo]
    refine ⟨by simp, ?_, by simp⟩
    intro hfit
    simp [wrap32_of_range hfit]
  · intro hfit
    rw [hbal, wrap32_of_range hfit]
  · rw [UpdateBalls_balls, hballs, survivors_append]
    congr 1
    have : survivors P g.pins g.binCenters (b :: post) =
        survivors P g.pins g.binCenters ([b] ++ post) := rfl
    rw [this, survivors_append]
    simp [survivors, hstep]
  · rw [UpdateBalls_lastWin, hballs]
    simp only [List.filter_append, List.filter_cons, hs, if_true, List.map_append,
      List.map_cons]
    rw [getLastD_append_cons, hinfo]

/-- Witness of C3: wager 10 at balance 1000 in bin 0.  The drop debits 10 and
fixes the payout 10000; the tick in which the ball crosses the exit line
leaves the balance at 10990, `amountWon` at 10000, the timer at 2.5 and the
collection empty. -/
theorem settlement_witness :
    ((DropBall (initial samplePlatform (0 : Nat))).balance = 990 ∧
      (DropBall (initial samplePlatform (0 : Nat))).balls.map
        (fun b => (b.betAmount, b.finalBin, b.winAmount)) = [(10, 0, 10000)]) ∧
    exitGame.balls = [] ++ exitBall :: [] ∧ exitBall.active = true ∧
    EXIT_Y < (moveBall samplePlatform exitGame.pins exitGame.binCenters exitBall).position.y ∧
    InInt32 (exitGame.balance + exitBall.winAmount) ∧
    (UpdateBalls exitGame).balance = 10990 ∧
    (UpdateBalls exitGame).balls = [] ∧
    (UpdateBalls exitGame).lastWin =
      { amountWon := 10000, betAmount := 10, finalBin := 0, displayTimer := 5 / 2 } :=
  have hexit : EXIT_Y <
      (moveBall samplePlatform exitGame.pins exitGame.binCenters exitBall).position.y := by
    decide!
  have hfit : InInt32 (exitGame.balance + exitBall.winAmount) := by
    unfold InInt32
    decide
  have h := settlement exitGame [] [] exitBall rfl rfl hexit
  ⟨by decide!, rfl, rfl, hexit, hfit, (h.2.2.2.2.1 hfit).trans (by decide), h.2.2.2.2.2.1,
    h.2.2.2.2.2.2⟩

/-- Counterexample to C3 as stated: with the balance at 2147483642 an active
ball with payout 10 crosses the exit line; after that call of `UpdateBalls`
the balance is -2147483644, not 2147483642 + 10. -/
theorem settlement_counterexample :
    richGame.balls = [richBall] ∧ richBall.active = true ∧
    EXIT_Y < (moveBall samplePlatform richGame.pins richGame.binCenters richBall).position.y ∧
    richGame.balance = 2147483642 ∧ richBall.winAmount = 10 ∧
    (UpdateBalls richGame).balance = -2147483644 ∧
    (UpdateBalls richGame).balance ≠ richGame.balance + richBall.winAmount := by
  decide!

/-! ## The ticket of a ball is immutable -/

theorem UpdateBalls_iterate_frame {P : Platform} (n : Nat) (g : Game P) :
    (UpdateBalls^[n] g).pins = g.pins ∧ (UpdateBalls^[n] g).binCenters = g.binCenters := by
  induction n generalizing g with
  | zero => exact ⟨rfl, rfl⟩
  | succ n ih =>
    rw [Function.iterate_succ_apply]
    rw [(ih (UpdateBalls g)).1, (ih (UpdateBalls g)).2]
    exact ⟨(UpdateBalls_frame g).1, (UpdateBalls_frame g).2.1⟩

theorem stepBall_iterate_ticket (P : Platform) (pins : List Pin) (bc : List Vector2) (n : Nat)
    (b : Ball) : ((stepBall P pins bc)^[n] b).ticket = b.ticket := by
  induction n generalizing b with
  | zero => rfl
  | succ n ih => rw [Function.iterate_succ_apply, ih, stepBall_ticket]

/-- C4. Every ball in the collection after `n` calls of `UpdateBalls` is a ball
of the collection before them to which the loop body was applied `n` times,
with the same `finalBin`, `betAmount` and `winAmount`; the loop body changes
at most the position, the velocity and the active flag of a ball, and one call
keeps the balls still active, in order, each moved by the loop body. -/
theorem ticket_immutable {P : Platform} (n : Nat) (g : Game P) :
    (∀ b' ∈ (UpdateBalls^[n] g).balls, ∃ b ∈ g.balls,
      b' = (stepBall P g.pins g.binCenters)^[n] b ∧
      b'.finalBin = b.finalBin ∧ b'.betAmount = b.betAmount ∧ b'.winAmount = b.winAmount) ∧
    (∀ b : Ball, stepBall P g.pins g.binCenters b =
      { b with position := (stepBall P g.pins g.binCenters b).position,
               velocity := (stepBall P g.pins g.binCenters b).velocity,
               active := (stepBall P g.pins g.binCenters b).active }) ∧
    (UpdateBalls g).balls =
      (g.balls.map (stepBall P g.pins g.binCenters)).filter (fun b => b.active) := by
  refine ⟨?_, ?_, ?_⟩
  · induction n generalizing g with
    | zero =>
      intro b' hb'
      exact ⟨b', hb', rfl, rfl, rfl, rfl⟩
    | succ n ih =>
      intro b' hb'
      rw [Function.iterate_succ_apply] at hb'
      obtain ⟨b1, hb1, heq, _⟩ := ih (UpdateBalls g) b' hb'
      rw [UpdateBalls_balls, survivors, List.mem_filter, List.mem_map] at hb1
      obtain ⟨⟨b, hb, hstep⟩, _⟩ := hb1
      rw [(UpdateBalls_frame g).1, (UpdateBalls_frame g).2.1, ← hstep] at heq
      have heq' : b' = (stepBall P g.pins g.binCenters)^[n + 1] b := by
        rw [Function.iterate_succ_apply]; exact heq
      have ht := stepBall_iterate_ticket P g.pins g.binCenters (n + 1) b
      rw [← heq'] at ht
      simp only [Ball.ticket, Prod.mk.injEq] at ht
      exact ⟨b, hb, heq', ht.1, ht.2.2, ht.2.1⟩
  · intro b
    have ht := stepBall_ticket P g.pins g.binCenters b
    simp only [Ball.ticket, Prod.mk.injEq] at ht
    cases hb : stepBall P g.pins g.binCenters b
    rw [hb] at ht
    simp only at ht
    cases b
    simp only at ht
    simp [ht.1, ht.2.1, ht.2.2]
  · exact UpdateBalls_balls g

/-! ## The outcome is a valid bin -/

theorem spawn_mem {P : Platform} (o : Op) (g : Game P) :
    ∀ b ∈ o.spawn g, b = (newBall g).1 := by
  intro b hb
  cases o with
  | dropBall =>
    rw [spawn_dropBall] at hb
    by_cases h : g.balance < g.currentBet
    · simp [h] at hb
    · simpa [h] using hb
  | updateBalls => simp [spawn_updateBalls] at hb
  | updateTimers dt => simp [spawn_updateTimers] at hb
  | handleInput i =>
    rw [spawn_handleInput] at hb
    by_cases h : i.drop = true ∧ g.currentBet ≤ g.balance
    · simpa [h] using hb
    · simp [h] at hb

theorem exec_binCenters {P : Platform} (o : Op) (g : Game P) :
    (o.exec g).binCenters = g.binCenters := by
  cases o with
  | dropBall => exact (DropBall_frame g).2.2.2.1
  | updateBalls => exact (UpdateBalls_frame g).2.1
  | updateTimers dt => exact (UpdateTimers_frame dt g).2.2.2.1
  | handleInput i =>
    show (HandleInput i g).binCenters = g.binCenters
    unfold HandleInput
    rw [(pressDown_frame i _).2.2.2.1, (pressUp_frame i _).2.2.2.1, (pressDrop_frame i g).2.2.2.1]

theorem binsValid_exec {P : Platform} (o : Op) {g : Game P} (h : BinsValid g) :
    BinsValid (o.exec g) := by
  refine ⟨(exec_binCenters o g).trans h.1, ?_⟩
  intro b hb
  rcases exec_balls o g with ho | hballs
  · subst ho
    change b ∈ (UpdateBalls g).balls at hb
    rw [UpdateBalls_balls, survivors, List.mem_filter, List.mem_map] at hb
    obtain ⟨⟨b0, hb0, rfl⟩, _⟩ := hb
    have ht := stepBall_ticket P g.pins g.binCenters b0
    simp only [Ball.ticket, Prod.mk.injEq] at ht
    rw [ht.1]
    exact h.2 b0 hb0
  · rw [hballs, List.mem_append] at hb
    rcases hb with hb | hb
    · exact h.2 b hb
    · rw [spawn_mem o g b hb, (newBall_fields g).2.2.1]
      exact PrecalculateOutcome_range P g.rng

theorem binsValid_run {P : Platform} (ops : List Op) {g : Game P} (h : BinsValid g) :
    BinsValid (run ops g) := by
  induction ops generalizing g with
  | nil => exact h
  | cons o os ih => exact ih (binsValid_exec o h)

theorem binsValid_initial (P : Platform) (seed : P.Rng) : BinsValid (initial P seed) := by
  refine ⟨rfl, ?_⟩
  intro b hb
  simp [Plinko.initial, InitializeGame, startup] at hb

/-- C5. The weight vector has one strictly positive entry per bin, 21 in all;
for every state of the random source `PrecalculateOutcome` returns an index
`i` with `0 ≤ i < 21`; the ball appended by a successful `DropBall` has a
`finalBin` that is a valid index of `PRIZE_MULTIPLIERS` and of the bin centres
of the board; in every state reached from the initial state every ball of the
collection satisfies the guard of the guidance block. -/
theorem outcome_range (P : Platform) :
    ((outcomeWeights P).length = PRIZE_MULTIPLIERS.length ∧ PRIZE_MULTIPLIERS.length = 21 ∧
      boardBinCenters.length = PRIZE_MULTIPLIERS.length) ∧
    (∀ w ∈ outcomeWeights P, 0 < w) ∧
    (∀ r : P.Rng, 0 ≤ (PrecalculateOutcome P r).1 ∧
      (PrecalculateOutcome P r).1 < (PRIZE_MULTIPLIERS.length : Int)) ∧
    (∀ g : Game P, g.currentBet ≤ g.balance →
      ∃ b : Ball, (DropBall g).balls = g.balls ++ [b] ∧
        b.finalBin = (PrecalculateOutcome P g.rng).1 ∧
        0 ≤ b.finalBin ∧ b.finalBin < (PRIZE_MULTIPLIERS.length : Int) ∧
        b.finalBin < (boardBinCenters.length : Int) ∧
        (PRIZE_MULTIPLIERS.get? b.finalBin.toNat).isSome = true) ∧
    (∀ (seed : P.Rng) (ops : List Op), ∀ b ∈ (run ops (initial P seed)).balls,
      0 ≤ b.finalBin ∧ b.finalBin < ((run ops (initial P seed)).binCenters.length : Int)) := by
  refine ⟨⟨?_, PRIZE_MULTIPLIERS_length, ?_⟩, outcomeWeights_pos P, ?_, ?_, ?_⟩
  · rw [outcomeWeights_length, PRIZE_MULTIPLIERS_length]
  · rw [boardBinCenters_length, PRIZE_MULTIPLIERS_length]
  · intro r
    rw [PRIZE_MULTIPLIERS_length]
    exact PrecalculateOutcome_range P r
  · intro g h
    have hr := PrecalculateOutcome_range P g.rng
    have hf := (newBall_fields g).2.2.1
    refine ⟨(newBall g).1, ?_, hf, ?_, ?_, ?_, ?_⟩
    · rw [DropBall_accepted g h]
    · rw [hf]; exact hr.1
    · rw [hf, PRIZE_MULTIPLIERS_length]; exact hr.2
    · rw [hf, boardBinCenters_length]; exact hr.2
    · rw [hf]
      have hlt : (PrecalculateOutcome P g.rng).1.toNat < PRIZE_MULTIPLIERS.length := by
        rw [PRIZE_MULTIPLIERS_length]; omega
      simp [List.get?_eq_getElem?, List.getElem?_eq_getElem hlt]
  · intro seed ops b hb
    have hv := binsValid_run ops (binsValid_initial P seed)
    rw [hv.1, boardBinCenters_length]
    exact hv.2 b hb

/-! ## The bet ladder is never left -/

theorem HandleInput_down_bottom {P : Platform} (g : Game P) (h : g.betIndex = 0) :
    HandleInput onlyDown g = g := by
  simp [HandleInput, pressDrop, pressUp, pressDown, onlyDown, h]

theorem HandleInput_up_top {P : Platform} (g : Game P)
    (h : g.betIndex = (BET_AMOUNTS.length : Int) - 1) : HandleInput onlyUp g = g := by
  have h7 : g.betIndex = 7 := by rw [h]; simp [BET_AMOUNTS]
  have ht : toSizeT 7 = 7 := by decide
  simp [HandleInput, pressDrop, pressUp, pressDown, onlyUp, h7, ht, BET_AMOUNTS]

/-- C6. In every state reached from the initial state (bet index 2, bet 10) by
any sequence of calls, among them any sequence of bet increases and decreases,
the bet index lies in `[0, 7]` and `currentBet` is `BET_AMOUNTS[betIndex]`; a
decrease at index 0 and an increase at index 7 return the state unchanged,
however often repeated, and the bet is then 1, respectively 500; a frame
without a drop request changes neither the balls nor the balance. -/
theorem bet_ladder (P : Platform) (seed : P.Rng) (ops : List Op) :
    ((initial P seed).betIndex = 2 ∧ (initial P seed).currentBet = 10) ∧
    (0 ≤ (run ops (initial P seed)).betIndex ∧
      (run ops (initial P seed)).betIndex ≤ (BET_AMOUNTS.length : Int) - 1 ∧
      BET_AMOUNTS.get? (run ops (initial P seed)).betIndex.toNat =
        some (run ops (initial P seed)).currentBet) ∧
    (∀ g : Game P, g.betIndex = 0 → ∀ n : Nat, (HandleInput onlyDown)^[n] g = g) ∧
    (∀ g : Game P, g.betIndex = (BET_AMOUNTS.length : Int) - 1 →
      ∀ n : Nat, (HandleInput onlyUp)^[n] g = g) ∧
    ((run ops (initial P seed)).betIndex = 0 → (run ops (initial P seed)).currentBet = 1) ∧
    ((run ops (initial P seed)).betIndex = (BET_AMOUNTS.length : Int) - 1 →
      (run ops (initial P seed)).currentBet = 500) ∧
    (∀ (g : Game P) (i : Input), i.drop = false →
      (HandleInput i g).balls = g.balls ∧ (HandleInput i g).balance = g.balance) := by
  have hL := ladder_run ops (ladder_initial P seed)
  obtain ⟨h0, h1, h2⟩ := hL
  have hlen : (BET_AMOUNTS.length : Int) = 8 := by simp [BET_AMOUNTS]
  refine ⟨⟨rfl, rfl⟩, ⟨h0, by omega, ?_⟩, ?_, ?_, ?_, ?_, ?_⟩
  · have hlt : (run ops (initial P seed)).betIndex.toNat < BET_AMOUNTS.length := by
      have : BET_AMOUNTS.length = 8 := by simp [BET_AMOUNTS]
      omega
    rw [← h2, List.get?_eq_getElem?, List.getElem?_eq_getElem hlt, List.getD_eq_getElem _ _ hlt]
  · intro g hg n
    exact Function.iterate_fixed (HandleInput_down_bottom g hg) n
  · intro g hg n
    exact Function.iterate_fixed (HandleInput_up_top g hg) n
  · intro hz
    rw [← h2, hz]
    simp [BET_AMOUNTS]
  · intro hz
    rw [← h2, hz, hlen]
    simp [BET_AMOUNTS]
  · intro g i hi
    unfold HandleInput
    rw [(pressDown_frame i _).1, (pressUp_frame i _).1, (pressDown_frame i _).2.1,
      (pressUp_frame i _).2.1, pressDrop_eq]
    simp [hi]

/-! ## The centre bin loses -/

theorem center_table : ∀ stake ∈ BET_AMOUNTS,
    payout stake 10 = ⌊(stake : ℚ) * (2 / 10)⌋ ∧ payout stake 10 < stake := by
  decide!

theorem verdict_loss (w : LastWinInfo) (h : w.amountWon < w.betAmount) :
    verdict w = Verdict.loss := by
  unfold verdict
  rw [if_neg (by omega), if_neg (by omega)]

/-- C7. The centre bin is index 10 of 21 and its multiplier is the float 0.2.
For every stake of the bet ladder a ball dropped with that stake into the
centre bin gets the payout `floor (stake * 0.2)`, strictly below its wager;
when it settles, the record written to `lastWin` makes `DrawUI` take its last
branch (the loss colour), not the win branch and not the push branch. -/
theorem center_loss (P : Platform) (stake : Int) (hs : stake ∈ BET_AMOUNTS) :
    (((PRIZE_MULTIPLIERS.length : Int) - 1) / 2 = 10 ∧
      PRIZE_MULTIPLIERS.get? 10 = some (fl (2 / 10)) ∧
      multiplierLiterals.get? 10 = some (2 / 10)) ∧
    (payout stake 10 = ⌊(stake : ℚ) * (2 / 10)⌋ ∧ payout stake 10 < stake) ∧
    (∀ g : Game P, g.currentBet = stake → (PrecalculateOutcome P g.rng).1 = 10 →
      (newBall g).1.betAmount = stake ∧ (newBall g).1.winAmount = payout stake 10 ∧
        (newBall g).1.winAmount < (newBall g).1.betAmount) ∧
    (∀ t : ℚ,
      verdict
        { amountWon := payout stake 10, betAmount := stake, finalBin := 10,
          displayTimer := t } = Verdict.loss) ∧
    (∀ (g : Game P) (b : Ball), g.balls = [b] → b.active = true → b.finalBin = 10 →
      b.betAmount = stake → b.winAmount = payout stake 10 →
      EXIT_Y < (moveBall P g.pins g.binCenters b).position.y →
      (UpdateBalls g).lastWin.amountWon < (UpdateBalls g).lastWin.betAmount ∧
        verdict (UpdateBalls g).lastWin = Verdict.loss ∧
        verdict (UpdateBalls g).lastWin ≠ Verdict.win ∧
        verdict (UpdateBalls g).lastWin ≠ Verdict.push) := by
  have hc := center_table stake hs
  refine ⟨⟨by decide, by decide!, by decide!⟩, hc, ?_, ?_, ?_⟩
  · intro g hg ho
    obtain ⟨_, hb, hf, hw⟩ := newBall_fields g
    rw [hf, ho, hg] at hw
    rw [hb, hw, hg]
    exact ⟨rfl, rfl, hc.2⟩
  · intro t
    exact verdict_loss _ hc.2
  · intro g b hballs hact hbin hbet hwin hexit
    have hset := settles_of_exit g.pins g.binCenters b hact hexit
    have h : (UpdateBalls g).lastWin = winInfo b := by
      rw [UpdateBalls_lastWin, hballs]
      simp [List.filter_cons, hset]
    have hlt : (UpdateBalls g).lastWin.amountWon < (UpdateBalls g).lastWin.betAmount := by
      rw [h]
      show b.winAmount < b.betAmount
      rw [hwin, hbet]
      exact hc.2
    have hv := verdict_loss _ hlt
    rw [hv]
    exact ⟨hlt, rfl, by decide, by decide⟩

/-- Witness of C7: the stake 10 in the centre bin pays 2 and is a loss. -/
theorem center_loss_witness :
    (10 : Int) ∈ BET_AMOUNTS ∧ payout 10 10 = 2 ∧ payout 10 10 < 10 ∧
      verdict
        { amountWon := payout 10 10, betAmount := 10, finalBin := 10,
          displayTimer := 5 / 2 } = Verdict.loss :=
  have hs : (10 : Int) ∈ BET_AMOUNTS := by decide
  have h := center_loss samplePlatform 10 hs
  ⟨hs, h.2.1.1.trans (by decide!), h.2.1.2, h.2.2.2.1 (5 / 2)⟩

/-! ## The result timer -/

/-- C8, as the code has it.  `UpdateTimers` never changes `amountWon` and
`betAmount`.  When the timer is positive the call replaces it by the float
difference `timer - dt` and leaves the highlighted bin as it is, also when the
new timer is zero or negative; when the timer is not positive the call leaves
it as it is and sets the highlighted bin to -1.  So the bin is cleared by the
first call made after the timer has reached zero, not by the call in which it
reaches zero. -/
theorem timer_decay {P : Platform} (dt : ℚ) (g : Game P) :
    ((UpdateTimers dt g).lastWin.amountWon = g.lastWin.amountWon ∧
      (UpdateTimers dt g).lastWin.betAmount = g.lastWin.betAmount) ∧
    (0 < g.lastWin.displayTimer →
      (UpdateTimers dt g).lastWin.displayTimer = fsub g.lastWin.displayTimer dt ∧
      (UpdateTimers dt g).lastWin.finalBin = g.lastWin.finalBin) ∧
    (g.lastWin.displayTimer ≤ 0 →
      (UpdateTimers dt g).lastWin.displayTimer = g.lastWin.displayTimer ∧
      (UpdateTimers dt g).lastWin.finalBin = -1) ∧
    (0 < g.lastWin.displayTimer → (UpdateTimers dt g).lastWin.displayTimer ≤ 0 →
      ∀ dt' : ℚ, (UpdateTimers dt' (UpdateTimers dt g)).lastWin.finalBin = -1 ∧
        (UpdateTimers dt' (UpdateTimers dt g)).lastWin.amountWon = g.lastWin.amountWon ∧
        (UpdateTimers dt' (UpdateTimers dt g)).lastWin.betAmount = g.lastWin.betAmount) := by
  have hpos : 0 < g.lastWin.displayTimer →
      UpdateTimers dt g =
        { g with lastWin := { g.lastWin with
            displayTimer := fsub g.lastWin.displayTimer dt } } := by
    intro h; simp [UpdateTimers, h]
  have hneg : ∀ (d : ℚ) (s : Game P), s.lastWin.displayTimer ≤ 0 →
      UpdateTimers d s = { s with lastWin := { s.lastWin with finalBin := -1 } } := by
    intro d s h; simp [UpdateTimers, not_lt.mpr h]
  refine ⟨?_, ?_, ?_, ?_⟩
  · unfold UpdateTimers
    split <;> exact ⟨rfl, rfl⟩
  · intro h
    rw [hpos h]
    exact ⟨rfl, rfl⟩
  · intro h
    rw [hneg dt g h]
    exact ⟨rfl, rfl⟩
  · intro h hle dt'
    rw [hneg dt' _ hle, hpos h]
    exact ⟨rfl, rfl, rfl⟩

/-- Counterexample to C8 as stated: with 1/64 s on the timer and a frame time
of 1/32 s the timer is positive before the call and negative after it, yet the
highlighted bin is still 0 after that call. -/
theorem timer_decay_counterexample :
    (0 : ℚ) < 1 / 32 ∧ 0 < fadingGame.lastWin.displayTimer ∧
      (UpdateTimers (1 / 32) fadingGame).lastWin.displayTimer ≤ 0 ∧
      (UpdateTimers (1 / 32) fadingGame).lastWin.finalBin = 0 ∧
      (UpdateTimers (1 / 32) fadingGame).lastWin.finalBin ≠ -1 := by
  decide!

/-- Witness of the amended C8 on `fadingGame`: the call that takes the timer
below zero keeps the bin, the next call clears it. -/
theorem timer_decay_witness :
    0 < fadingGame.lastWin.displayTimer ∧
      (UpdateTimers (1 / 32) fadingGame).lastWin.displayTimer ≤ 0 ∧
      (UpdateTimers (1 / 32) fadingGame).lastWin.finalBin = fadingGame.lastWin.finalBin ∧
      (UpdateTimers (1 / 32) (UpdateTimers (1 / 32) fadingGame)).lastWin.finalBin = -1 :=
  have hpos : 0 < fadingGame.lastWin.displayTimer := by decide!
  have hle : (UpdateTimers (1 / 32) fadingGame).lastWin.displayTimer ≤ 0 := by decide!
  have h := timer_decay (1 / 32) fadingGame
  ⟨hpos, hle, (h.2.1 hpos).2, (h.2.2.2 hpos hle (1 / 32)).1⟩

/-! ## The multiplier table -/

/-- C9, as the code has it.  The table has 21 entries, is symmetric about the
centre bin 10, is 1000 at both ends, does not increase from the left edge to
the centre nor decrease from the centre to the right edge, and its minimum,
the float 0.2, is taken exactly on the seven bins 7 to 13, the centre bin
among them: the table does not rise at the centre. -/
theorem multiplier_shape :
    PRIZE_MULTIPLIERS.length = 21 ∧
    (∀ i < 21, PRIZE_MULTIPLIERS.getD i 0 = PRIZE_MULTIPLIERS.getD (20 - i) 0) ∧
    (PRIZE_MULTIPLIERS.getD 0 0 = 1000 ∧ PRIZE_MULTIPLIERS.getD 20 0 = 1000) ∧
    (∀ i < 10, PRIZE_MULTIPLIERS.getD (i + 1) 0 ≤ PRIZE_MULTIPLIERS.getD i 0) ∧
    (∀ i < 10, PRIZE_MULTIPLIERS.getD (10 + i) 0 ≤ PRIZE_MULTIPLIERS.getD (10 + i + 1) 0) ∧
    (∀ i < 21, fl (2 / 10) ≤ PRIZE_MULTIPLIERS.getD i 0) ∧
    (∀ i < 21, PRIZE_MULTIPLIERS.getD i 0 = fl (2 / 10) ↔ 7 ≤ i ∧ i ≤ 13) ∧
    (PRIZE_MULTIPLIERS.getD 10 0 = PRIZE_MULTIPLIERS.getD 9 0 ∧
      PRIZE_MULTIPLIERS.getD 10 0 = PRIZE_MULTIPLIERS.getD 11 0) := by
  decide!

/-- Counterexample to C9 as stated: the centre bin 10 has the same multiplier
as its neighbours 9 and 11, the minimum 0.2; it is not strictly greater. -/
theorem multiplier_shape_counterexample :
    PRIZE_MULTIPLIERS.getD 10 0 = fl (2 / 10) ∧
      PRIZE_MULTIPLIERS.getD 9 0 = fl (2 / 10) ∧ PRIZE_MULTIPLIERS.getD 11 0 = fl (2 / 10) ∧
      ¬ (PRIZE_MULTIPLIERS.getD 9 0 < PRIZE_MULTIPLIERS.getD 10 0) ∧
      ¬ (PRIZE_MULTIPLIERS.getD 11 0 < PRIZE_MULTIPLIERS.getD 10 0) := by
  decide!

end Plinko
